import Mathlib

/-
  Verification of the ArchDrift conformance engine.

  This file gives a shallow embedding, in Lean 4, of the parts of the
  ArchDrift backend that carry the specification's invariants:

  * `backend/utils/architecture_mapper.py` : `normalize_repo_path`
  * `backend/services/baseline_service.py` : `compute_repo_id`
  * `backend/api/routes.py`                : the onboarding/snapshot repo id
  * `backend/utils/baseline_store.py`      : `normalize_edges`,
    `canonical_edges_bytes`, `compute_baseline_hash_sha256`,
    `store_baseline`, `load_baseline`, `read_baseline_exceptions`,
    `get_active_exceptions`
  * `backend/utils/conformance_compare.py` : `normalize_edge_input`
  * `backend/utils/rule_checker.py`        : `build_allowed_set_from_rules`,
    `build_exception_set_and_map`, `check_rules`
  * `backend/utils/cycle_detector.py`      : `canonicalise_cycle`,
    `detect_cycles`
  * `backend/utils/drift_classifier.py`    : `classify_drift`

  Modelling conventions:
  * Python `str` is Lean `String`; Python string comparison (`<`, `<=`)
    is lexicographic on code points, embedded below as executable
    Boolean comparisons on `List Char` code points.
  * Python `set` is embedded as a duplicate-free `List` built by
    insertion in first-occurrence order; every set that escapes a
    function in the source is serialised through `sorted(...)`, which is
    embedded as an insertion sort, so the chosen representative is
    irrelevant to all stated results.
  * Python `dict` values read from JSON are embedded by the inductive
    type `JsonVal`; JSON numbers are embedded as rationals.
  * Fallible Python code (functions that may raise) returns `Except
    String`; the error string is the exception message.
  * `datetime.now(timezone.utc).isoformat()` is passed in explicitly as
    a `now : String` argument wherever the source calls it.
  * `while` loops that terminate because a measure strictly decreases
    are embedded with an explicit fuel argument initialised to a bound
    the measure proves sufficient.
-/

namespace ArchDrift

/-! ## Code-point comparisons (Python `str` ordering) -/

/-- Strict comparison of two code points (Python compares characters by
code point). -/
def charLtB (a b : Char) : Bool :=
  Nat.blt a.toNat b.toNat

/-- Generic lexicographic strict comparison of two sequences, given a
strict comparison on elements; this is exactly Python's `<` on two
strings, tuples or lists: compare heads, on ties recurse, a proper
initial segment is smaller. -/
def lexLtB [DecidableEq α] (lt : α → α → Bool) : List α → List α → Bool
  | _, [] => false
  | [], _ :: _ => true
  | a :: as, b :: bs =>
    if lt a b then true
    else if a = b then lexLtB lt as bs
    else false

/-- Python `a < b` on strings. -/
def strLtB (a b : String) : Bool :=
  lexLtB charLtB a.data b.data

/-- Python `a <= b` on strings (total order, so `a <= b` iff `not (b < a)`). -/
def strLeB (a b : String) : Bool :=
  !(strLtB b a)

/-- `strLeB` as a proposition, for use with the sorting library. -/
def strLe (a b : String) : Prop := strLeB a b = true

instance : DecidableRel strLe := fun a b => by
  unfold strLe; infer_instance

/-- Python `<` on `(from, to)` key tuples used by
`sorted(edge_set, key=lambda t: (t[0], t[1]))`. -/
def edgeLtB (a b : String × String) : Bool :=
  if strLtB a.1 b.1 then true
  else if a.1 = b.1 then strLtB a.2 b.2
  else false

/-- `<=` on `(from, to)` key tuples. -/
def edgeLeB (a b : String × String) : Bool :=
  !(edgeLtB b a)

/-- `edgeLeB` as a proposition. -/
def edgeLe (a b : String × String) : Prop := edgeLeB a b = true

instance : DecidableRel edgeLe := fun a b => by
  unfold edgeLe; infer_instance

/-- Python `<` on tuples of strings (canonical cycles). -/
def listStrLtB (a b : List String) : Bool :=
  lexLtB strLtB a b

/-- Python `<=` on tuples of strings. -/
def listStrLeB (a b : List String) : Bool :=
  !(listStrLtB b a)

/-- `listStrLeB` as a proposition. -/
def listStrLe (a b : List String) : Prop := listStrLeB a b = true

instance : DecidableRel listStrLe := fun a b => by
  unfold listStrLe; infer_instance

/-- Python `sorted` on strings. -/
def sortStrings (l : List String) : List String :=
  l.insertionSort strLe

/-- Python `sorted` on `(from, to)` tuples. -/
def sortEdges (l : List (String × String)) : List (String × String) :=
  l.insertionSort edgeLe

/-- Python `sorted` on canonical cycle tuples. -/
def sortCycles (l : List (List String)) : List (List String) :=
  l.insertionSort listStrLe

/-! ## Duplicate-free lists as Python sets -/

/-- `s.add(x)` on the list embedding of a Python set. -/
def setAdd [DecidableEq α] (s : List α) (x : α) : List α :=
  if x ∈ s then s else s ++ [x]

/-- Set difference `a - b` on the list embedding. -/
def setDiff [DecidableEq α] (a b : List α) : List α :=
  a.filter (fun x => x ∉ b)

/-- Set intersection `a & b` on the list embedding. -/
def setInter [DecidableEq α] (a b : List α) : List α :=
  a.filter (fun x => x ∈ b)

/-! ## `normalize_repo_path` (backend/utils/architecture_mapper.py) -/

/-- One pass of Python `str.replace("//", "/")`: replace non-overlapping
occurrences left to right. -/
def collapseOnce : List Char → List Char
  | '/' :: '/' :: rest => '/' :: collapseOnce rest
  | c :: rest => c :: collapseOnce rest
  | [] => []

/-- Python `"//" in path_str`. -/
def hasDoubleSlash : List Char → Bool
  | '/' :: '/' :: _ => true
  | _ :: rest => hasDoubleSlash rest
  | [] => false

/-- The `while "//" in path_str:` loop, with fuel; every iteration
strictly shortens the string, so `s.length` iterations always suffice
(proved below). -/
def collapseFuel : Nat → List Char → List Char
  | 0, s => s
  | fuel + 1, s => if hasDoubleSlash s then collapseFuel fuel (collapseOnce s) else s

/-- The fully collapsed string the `while` loop produces. -/
def collapseSlashes (s : List Char) : List Char :=
  collapseFuel s.length s

/-- Python `path_str[1:] if path_str.startswith("/") else path_str`. -/
def stripLeadingSlash (l : List Char) : List Char :=
  match l with
  | '/' :: rest => rest
  | other => other

/-- `normalize_repo_path`: backslashes to slashes, strip one leading
`./`, strip one leading `/`, collapse duplicate slashes. -/
def normalize_repo_path (p : String) : String :=
  let s1 := p.data.map (fun c => if c = '\\' then '/' else c)
  let s2 := if s1.take 2 = ['.', '/'] then s1.drop 2 else s1
  let s3 := stripLeadingSlash s2
  String.mk (collapseSlashes s3)

/-! ## SHA-256 (`hashlib.sha256`) and hex digests -/

/-- Truncate to a 32-bit word. -/
def w32 (n : Nat) : Nat := n % 4294967296

/-- 32-bit right rotation. -/
def rotr (k x : Nat) : Nat := w32 ((x >>> k) ||| (x <<< (32 - k)))

/-- The 64 SHA-256 round constants, in decimal (fractional cube roots
of the first 64 primes). -/
def sha256K : List Nat :=
  [1116352408, 1899447441, 3049323471, 3921009573, 961987163,
   1508970993, 2453635748, 2870763221, 3624381080, 310598401,
   607225278, 1426881987, 1925078388, 2162078206, 2614888103,
   3248222580, 3835390401, 4022224774, 264347078, 604807628,
   770255983, 1249150122, 1555081692, 1996064986, 2554220882,
   2821834349, 2952996808, 3210313671, 3336571891, 3584528711,
   113926993, 338241895, 666307205, 773529912, 1294757372,
   1396182291, 1695183700, 1986661051, 2177026350, 2456956037,
   2730485921, 2820302411, 3259730800, 3345764771, 3516065817,
   3600352804, 4094571909, 275423344, 430227734, 506948616,
   659060556, 883997877, 958139571, 1322822218, 1537002063,
   1747873779, 1955562222, 2024104815, 2227730452, 2361852424,
   2428436474, 2756734187, 3204031479, 3329325298]

/-- The SHA-256 initial state, in decimal (fractional square roots of
the first 8 primes). -/
def sha256H0 : List Nat :=
  [1779033703, 3144134277, 1013904242, 2773480762, 1359893119,
   2600822924, 528734635, 1541459225]

/-- Split a byte list into the sixteen 32-bit big-endian words of one
512-bit block. -/
def blockWords : List Nat → List Nat
  | b0 :: b1 :: b2 :: b3 :: rest => (((b0 * 256 + b1) * 256 + b2) * 256 + b3) :: blockWords rest
  | _ => []

/-- Message-schedule extension: grow the 16 block words to 64. -/
def extendWords (w : List Nat) : Nat → List Nat
  | 0 => w
  | k + 1 =>
    let w' := extendWords w k
    let i := w'.length
    let g := fun j => w'.getD j 0
    let s0 := (rotr 7 (g (i - 15))) ^^^ (rotr 18 (g (i - 15))) ^^^ ((g (i - 15)) >>> 3)
    let s1 := (rotr 17 (g (i - 2))) ^^^ (rotr 19 (g (i - 2))) ^^^ ((g (i - 2)) >>> 10)
    w' ++ [w32 (g (i - 16) + s0 + g (i - 7) + s1)]

/-- One SHA-256 compression round. -/
def sha256Round (st : List Nat) (kw : Nat × Nat) : List Nat :=
  match st with
  | [a, b, c, d, e, f, g, h] =>
    let s1 := (rotr 6 e) ^^^ (rotr 11 e) ^^^ (rotr 25 e)
    let ch := (e &&& f) ^^^ ((2 ^ 32 - 1 - e) &&& g)
    let t1 := w32 (h + s1 + ch + kw.1 + kw.2)
    let s0 := (rotr 2 a) ^^^ (rotr 13 a) ^^^ (rotr 22 a)
    let mj := (a &&& b) ^^^ (a &&& c) ^^^ (b &&& c)
    let t2 := w32 (s0 + mj)
    [w32 (t1 + t2), a, b, c, w32 (d + t1), e, f, g]
  | other => other

/-- Compress one 64-byte block into the running hash state. -/
def sha256Block (h : List Nat) (block : List Nat) : List Nat :=
  let w := extendWords (blockWords block) 48
  let st := (sha256K.zip w).foldl sha256Round h
  (h.zip st).map (fun p => w32 (p.1 + p.2))

/-- Split a padded message into 64-byte blocks (length is a multiple of
64 after padding, so `n` blocks suffice when `n * 64` covers the input). -/
def splitBlocks : Nat → List Nat → List (List Nat)
  | 0, _ => []
  | _ + 1, [] => []
  | n + 1, bytes => bytes.take 64 :: splitBlocks n (bytes.drop 64)

/-- Big-endian bytes of `n`, `k` bytes wide. -/
def beBytes (k n : Nat) : List Nat :=
  match k with
  | 0 => []
  | k + 1 => beBytes k (n / 256) ++ [n % 256]

/-- SHA-256 padding: `0x80`, zeros to 56 mod 64, then the 64-bit
big-endian bit length. -/
def sha256Pad (msg : List Nat) : List Nat :=
  let padLen := (55 + 64 - msg.length % 64) % 64 + 1
  msg ++ (0x80 :: List.replicate (padLen - 1) 0) ++ beBytes 8 (msg.length * 8)

/-- SHA-256 of a byte list, as the final eight 32-bit words. -/
def sha256Words (msg : List Nat) : List Nat :=
  let padded := sha256Pad msg
  (splitBlocks (padded.length / 64 + 1) padded).foldl sha256Block sha256H0

/-- Hex digit characters. -/
def hexDigit (n : Nat) : Char :=
  if n < 10 then Char.ofNat (48 + n) else Char.ofNat (87 + n)

/-- Eight-character hex rendering of a 32-bit word. -/
def hexWord (n : Nat) : List Char :=
  (List.range 8).map (fun i => hexDigit ((n >>> (28 - 4 * i)) &&& 15))

/-- `hashlib.sha256(...).hexdigest()`: 64 hex characters. -/
def sha256Hex (msg : List Nat) : List Char :=
  (sha256Words msg).flatMap hexWord

/-- UTF-8 bytes of one code point. -/
def utf8Char (c : Nat) : List Nat :=
  if c < 0x80 then [c]
  else if c < 0x800 then [0xc0 ||| (c >>> 6), 0x80 ||| (c &&& 0x3f)]
  else if c < 0x10000 then
    [0xe0 ||| (c >>> 12), 0x80 ||| ((c >>> 6) &&& 0x3f), 0x80 ||| (c &&& 0x3f)]
  else
    [0xf0 ||| (c >>> 18), 0x80 ||| ((c >>> 12) &&& 0x3f),
     0x80 ||| ((c >>> 6) &&& 0x3f), 0x80 ||| (c &&& 0x3f)]

/-- Python `s.encode("utf-8")`. -/
def strBytes (s : String) : List Nat :=
  s.data.flatMap (fun c => utf8Char c.toNat)

/-! ## Repo ids -/

/-- `compute_repo_id` (backend/services/baseline_service.py): first 16
hex characters of SHA-256 of the canonical (resolved POSIX) repository
path.  The filesystem existence checks and `Path.resolve()` are I/O; the
function is embedded on the already-canonical path string. -/
def compute_repo_id (canonicalPath : String) : String :=
  String.mk ((sha256Hex (strBytes canonicalPath)).take 16)

/-- The repo id computed by the onboarding workers in
backend/api/routes.py (`_apply_module_map_worker` line 894,
`_create_arch_snapshot_worker` line 1056):
`hashlib.sha256(str(repo_path).encode("utf-8")).hexdigest()[:12]` over
the raw request path. -/
def routes_repo_id (repoPath : String) : String :=
  String.mk ((sha256Hex (strBytes repoPath)).take 12)

/-- `snapshot_id` (backend/api/routes.py line 1080-1081): first 16 hex
characters of SHA-256 of `module_map_sha256 | rules_hash? | baseline_hash?`. -/
def snapshot_id (moduleMapSha256 : String) (rulesHash baselineHash : Option String) : String :=
  String.mk ((sha256Hex (strBytes
    (moduleMapSha256 ++ "|" ++ rulesHash.getD "" ++ "|" ++ baselineHash.getD ""))).take 16)

/-! ## JSON values (`json.load` results) -/

/-- Parsed JSON values as Python `json.load` produces them: objects are
`dict`s in key order, integer literals load as `int`, other numbers as
`float` (embedded as exact rationals). -/
inductive JsonVal where
  | null
  | bool (b : Bool)
  | int (n : Int)
  | float (q : ℚ)
  | str (s : String)
  | arr (elems : List JsonVal)
  | obj (fields : List (String × JsonVal))

/-- `d[k]` / `d.get(k)` on an embedded `dict`. -/
def lookupField : List (String × JsonVal) → String → Option JsonVal
  | [], _ => none
  | (k, v) :: rest, key => if k = key then some v else lookupField rest key

/-- Python `type(x).__name__` for error messages. -/
def jsonTypeName : JsonVal → String
  | .null => "NoneType"
  | .bool _ => "bool"
  | .int _ => "int"
  | .float _ => "float"
  | .str _ => "str"
  | .arr _ => "list"
  | .obj _ => "dict"

/-! ## Baseline store (backend/utils/baseline_store.py) -/

/-- The validation/dedup loop of `normalize_edges`: edges must be dicts
with non-empty string values under `"from"` and `"to"`; duplicates are
folded keeping the first occurrence. -/
def normalize_edges_loop : List JsonVal → Nat → List (String × String) →
    Except String (List (String × String))
  | [], _, acc => .ok acc
  | e :: rest, i, acc =>
    match e with
    | .obj fields =>
      match lookupField fields "from" with
      | none => .error s!"Edge at index {i} missing required key 'from'"
      | some fv =>
        match lookupField fields "to" with
        | none => .error s!"Edge at index {i} missing required key 'to'"
        | some tv =>
          match fv, tv with
          | .str f, .str t =>
            if f = "" then .error s!"Edge at index {i} 'from' must be non-empty"
            else if t = "" then .error s!"Edge at index {i} 'to' must be non-empty"
            else normalize_edges_loop rest (i + 1) (setAdd acc (f, t))
          | .str _, tv =>
            .error s!"Edge at index {i} 'to' must be a string, got {jsonTypeName tv}"
          | fv, _ =>
            .error s!"Edge at index {i} 'from' must be a string, got {jsonTypeName fv}"
    | other => .error s!"Edge at index {i} must be a dictionary, got {jsonTypeName other}"

/-- `normalize_edges`: validate, dedupe, then sort lexicographically by
`(from, to)`. -/
def normalize_edges (edges : List JsonVal) : Except String (List (String × String)) :=
  (normalize_edges_loop edges 0 []).map sortEdges

/-- Lowercase hex, four digits, for `\uXXXX` escapes. -/
def hex4 (n : Nat) : List Char :=
  (List.range 4).map (fun i => hexDigit ((n >>> (12 - 4 * i)) &&& 15))

/-- `json.dumps` escaping of one character with `ensure_ascii=True`. -/
def jsonEscapeChar (c : Char) : List Char :=
  if c = '"' then ['\\', '"']
  else if c = '\\' then ['\\', '\\']
  else if c = '\n' then ['\\', 'n']
  else if c = '\r' then ['\\', 'r']
  else if c = '\t' then ['\\', 't']
  else if c.toNat = 8 then ['\\', 'b']
  else if c.toNat = 12 then ['\\', 'f']
  else if c.toNat < 0x20 then '\\' :: 'u' :: hex4 c.toNat
  else if c.toNat < 0x7f then [c]
  else if c.toNat < 0x10000 then '\\' :: 'u' :: hex4 c.toNat
  else
    ('\\' :: 'u' :: hex4 (0xd800 + ((c.toNat - 0x10000) >>> 10))) ++
    ('\\' :: 'u' :: hex4 (0xdc00 + ((c.toNat - 0x10000) &&& 0x3ff)))

/-- A JSON string literal as `json.dumps` renders it. -/
def jsonQuote (s : String) : String :=
  "\"" ++ String.mk (s.data.flatMap jsonEscapeChar) ++ "\""

/-- One edge dict rendered with sorted keys and no whitespace
(`"from" < "to"`). -/
def edgeCanonical (e : String × String) : String :=
  "\x7b\"from\":" ++ jsonQuote e.1 ++ ",\"to\":" ++ jsonQuote e.2 ++ "\x7d"

/-- `canonical_edges_bytes` as a string:
`json.dumps({"version":"1.0","edges":normalized}, sort_keys=True,
separators=(",",":"), ensure_ascii=True)`; sorted keys put `"edges"`
before `"version"`. -/
def canonical_edges_str (normalized : List (String × String)) : String :=
  "\x7b\"edges\":[" ++ String.intercalate "," (normalized.map edgeCanonical) ++
    "],\"version\":\"1.0\"\x7d"

/-- `canonical_edges_bytes`: the UTF-8 bytes of the canonical JSON. -/
def canonical_edges_bytes (normalized : List (String × String)) : List Nat :=
  strBytes (canonical_edges_str normalized)

/-- `compute_baseline_hash_sha256`. -/
def compute_baseline_hash_sha256 (normalized : List (String × String)) : String :=
  String.mk (sha256Hex (canonical_edges_bytes normalized))

/-- The on-disk content of one JSON file. -/
inductive FileState where
  | absent
  | invalidJson
  | json (v : JsonVal)

/-- The two files `store_baseline` writes. -/
structure BaselineDirState where
  edges_file : FileState
  summary_file : FileState

/-- The dict `store_baseline` returns. -/
structure StoreResult where
  baseline_dir : String
  baseline_hash_sha256 : String
  edge_count : Nat
  deriving DecidableEq

/-- The fields of the `graph_stats` dict that `store_baseline` reads
(`None`/empty dict is embedded as `none`; a missing key as a `none`
field). -/
structure GraphStats where
  included_files : Option Int
  unmapped_files : Option Int
  unresolved_imports : Option Int
  unmapped_buckets : Option (List JsonVal)

/-- An edge as it is serialised into `baseline_edges.json`. -/
def edgeJson (e : String × String) : JsonVal :=
  .obj [("from", .str e.1), ("to", .str e.2)]

/-- The `health` dict embedded into the summary when `graph_stats` is
truthy.  `unmapped_ratio` is true division, embedded as an exact
rational. -/
def healthJson (edgeCount : Nat) (gs : GraphStats) : List (String × JsonVal) :=
  let included := gs.included_files.getD 0
  let unmapped := gs.unmapped_files.getD 0
  let ratio : ℚ := if 0 < included then (unmapped : ℚ) / (included : ℚ) else 0
  let base :=
    [("edge_count", JsonVal.int edgeCount),
     ("included_files", JsonVal.int included),
     ("unmapped_files", JsonVal.int unmapped),
     ("unmapped_ratio", JsonVal.float ratio),
     ("unresolved_imports", JsonVal.int (gs.unresolved_imports.getD 0))]
  match gs.unmapped_buckets with
  | some buckets => base ++ [("top_unmapped_buckets", JsonVal.arr (buckets.take 10))]
  | none => base

/-- `store_baseline`: normalize, hash, then atomically write
`baseline_edges.json` and `baseline_summary.json`; returns the written
directory state together with the result dict. -/
def store_baseline (baseline_dir : String) (edges : List JsonVal)
    (graph_stats : Option GraphStats) (now : String) :
    Except String (BaselineDirState × StoreResult) := do
  let normalized ← normalize_edges edges
  let hash_hex := compute_baseline_hash_sha256 normalized
  let edges_payload : JsonVal :=
    .obj [("version", .str "1.0"), ("edges", .arr (normalized.map edgeJson))]
  let base_summary :=
    [("version", JsonVal.str "1.0"),
     ("created_at_utc", JsonVal.str now),
     ("baseline_hash_sha256", JsonVal.str hash_hex),
     ("edge_count", JsonVal.int normalized.length)]
  let summary_payload : JsonVal :=
    .obj (match graph_stats with
      | some gs => base_summary ++ [("health", JsonVal.obj (healthJson normalized.length gs))]
      | none => base_summary)
  pure
    ({ edges_file := .json edges_payload, summary_file := .json summary_payload },
     { baseline_dir := baseline_dir,
       baseline_hash_sha256 := hash_hex,
       edge_count := normalized.length })

/-- Python `x != "1.0"` on a JSON value (only the string `"1.0"` compares
equal). -/
def isVersionOne : JsonVal → Bool
  | .str s => s = "1.0"
  | _ => false

/-- `load_baseline`: read and schema-check both files, re-normalize the
on-disk edges, recompute the hash and refuse on mismatch; returns the
normalized edges and the summary dict.  The nested matches mirror the
sequential raise-on-failure checks of the source. -/
def load_baseline (st : BaselineDirState) :
    Except String (List (String × String) × JsonVal) :=
  match st.edges_file with
  | .absent => .error "Missing baseline file 'baseline_edges.json' at expected path"
  | .invalidJson => .error "Invalid JSON in 'baseline_edges.json'"
  | .json edges_data =>
    match edges_data with
    | .obj edges_fields =>
      match lookupField edges_fields "version" with
      | none => .error "'baseline_edges.json': missing required key 'version'"
      | some version =>
        if !(isVersionOne version) then
          .error "'baseline_edges.json': unsupported version, expected '1.0'"
        else
          match lookupField edges_fields "edges" with
          | none => .error "'baseline_edges.json': missing required key 'edges'"
          | some (.arr edges_list) =>
            (match st.summary_file with
            | .absent => .error "Missing baseline file 'baseline_summary.json' at expected path"
            | .invalidJson => .error "Invalid JSON in 'baseline_summary.json'"
            | .json summary_data =>
              match summary_data with
              | .obj summary_fields =>
                match lookupField summary_fields "version" with
                | none => .error "'baseline_summary.json': missing required key 'version'"
                | some sversion =>
                  if !(isVersionOne sversion) then
                    .error "'baseline_summary.json': unsupported version, expected '1.0'"
                  else if (lookupField summary_fields "created_at_utc").isNone then
                    .error "'baseline_summary.json': missing required key 'created_at_utc'"
                  else
                    match lookupField summary_fields "baseline_hash_sha256" with
                    | none =>
                      .error "'baseline_summary.json': missing required key 'baseline_hash_sha256'"
                    | some stored_hash_v =>
                      match lookupField summary_fields "edge_count" with
                      | none => .error "'baseline_summary.json': missing required key 'edge_count'"
                      | some stored_count_v =>
                        match stored_hash_v with
                        | .str stored_hash =>
                          if stored_hash.length ≠ 64 then
                            .error s!"'baseline_summary.json': 'baseline_hash_sha256' must be 64 characters, got {stored_hash.length}"
                          else
                            match stored_count_v with
                            | .int stored_count =>
                              (match normalize_edges edges_list with
                              | .error e => .error e
                              | .ok normalized_edges =>
                                if compute_baseline_hash_sha256 normalized_edges ≠ stored_hash then
                                  .error ("Baseline hash mismatch: expected " ++ stored_hash ++
                                    ", got " ++ compute_baseline_hash_sha256 normalized_edges)
                                else if (normalized_edges.length : Int) ≠ stored_count then
                                  .error s!"Edge count mismatch: expected {stored_count}, got {normalized_edges.length}"
                                else
                                  .ok (normalized_edges, summary_data))
                            | other =>
                              .error s!"'baseline_summary.json': 'edge_count' must be an integer, got {jsonTypeName other}"
                        | other =>
                          .error s!"'baseline_summary.json': 'baseline_hash_sha256' must be a string, got {jsonTypeName other}"
              | _ => .error "'baseline_summary.json': root must be an object")
          | some other =>
            .error s!"'baseline_edges.json': 'edges' must be a list, got {jsonTypeName other}"
    | _ => .error "'baseline_edges.json': root must be an object"

/-- `read_baseline_exceptions`: a missing file, invalid JSON, or a
non-list root all silently yield the empty list. -/
def read_baseline_exceptions (f : FileState) : List JsonVal :=
  match f with
  | .absent => []
  | .invalidJson => []
  | .json (.arr l) => l
  | .json _ => []

/-- The body of the `for exc in exceptions` filter in
`get_active_exceptions`: `exc.get("expires_at")` requires a dict
(otherwise Python raises `AttributeError`), a missing or null expiry is
active forever, and a string expiry is active iff `expires_at > now`
(string comparison); comparing a non-string expiry raises `TypeError`. -/
def activeFilter (now : String) : List JsonVal → Except String (List JsonVal)
  | [] => .ok []
  | exc :: rest =>
    match exc with
    | .obj fields =>
      match lookupField fields "expires_at" with
      | none => (activeFilter now rest).map (exc :: ·)
      | some .null => (activeFilter now rest).map (exc :: ·)
      | some (.str expires_at) =>
        if strLtB now expires_at then (activeFilter now rest).map (exc :: ·)
        else activeFilter now rest
      | some _ => .error "TypeError: '>' not supported between instances"
    | _ => .error "AttributeError: object has no attribute 'get'"

/-- `get_active_exceptions`: read the exceptions file and keep the
non-expired entries. -/
def get_active_exceptions (f : FileState) (now : String) : Except String (List JsonVal) :=
  activeFilter now (read_baseline_exceptions f)

/-! ## `normalize_edge_input` (backend/utils/conformance_compare.py) -/

/-- `normalize_edge_input`: validate a list of edge dicts and collect
them into a set of `(from, to)` tuples (embedded as a duplicate-free
list). -/
def normalize_edge_input_loop : List JsonVal → Nat → List (String × String) →
    Except String (List (String × String))
  | [], _, acc => .ok acc
  | e :: rest, i, acc =>
    match e with
    | .obj fields =>
      match lookupField fields "from" with
      | none => .error s!"Edge at index {i} missing required key 'from'"
      | some fv =>
        match lookupField fields "to" with
        | none => .error s!"Edge at index {i} missing required key 'to'"
        | some tv =>
          match fv, tv with
          | .str f, .str t =>
            if f = "" then .error s!"Edge at index {i} 'from' must be non-empty"
            else if t = "" then .error s!"Edge at index {i} 'to' must be non-empty"
            else normalize_edge_input_loop rest (i + 1) (setAdd acc (f, t))
          | .str _, tv =>
            .error s!"Edge at index {i} 'to' must be a string, got {jsonTypeName tv}"
          | fv, _ =>
            .error s!"Edge at index {i} 'from' must be a string, got {jsonTypeName fv}"
    | other => .error s!"Edge at index {i} must be a dictionary, got {jsonTypeName other}"

/-- `normalize_edge_input` (duplicates folded by the set). -/
def normalize_edge_input (edges : List JsonVal) : Except String (List (String × String)) :=
  normalize_edge_input_loop edges 0 []

/-! ## Rule checker (backend/utils/rule_checker.py) -/

/-- The fields of `ArchitectureConfig` the rule checker reads. -/
structure ArchConfig where
  deny_by_default : Bool
  allowed_edges : List (String × String)
  deriving DecidableEq

/-- The fields of an active-exception dict the rule checker reads
(`exc.get(...)` returns `none` for a missing key; an empty string is
falsy like a missing one). -/
structure ExceptionRec where
  from_module : Option String
  to_module : Option String
  expires_at : Option String
  deriving DecidableEq

/-- `build_allowed_set_from_rules`: the set of allowed `(from, to)`
tuples. -/
def build_allowed_set_from_rules (config : ArchConfig) : List (String × String) :=
  config.allowed_edges.foldl (fun s e => setAdd s e) []

/-- One step of the `for exc in active_exceptions` loop of
`build_exception_set_and_map`: skip falsy `from_module`/`to_module`,
skip entries expired at `now` (`expires_at <= now`; a missing expiry
never expires), otherwise add the edge tuple to the set and the map. -/
def besmStep (now : String)
    (acc : List (String × String) × List ((String × String) × ExceptionRec))
    (exc : ExceptionRec) :
    List (String × String) × List ((String × String) × ExceptionRec) :=
  match exc.from_module, exc.to_module with
  | some f, some t =>
    if f = "" ∨ t = "" then acc
    else
      match exc.expires_at with
      | some expires_at =>
        if strLeB expires_at now then acc
        else (setAdd acc.1 (f, t), acc.2 ++ [((f, t), exc)])
      | none => (setAdd acc.1 (f, t), acc.2 ++ [((f, t), exc)])
  | _, _ => acc

/-- `build_exception_set_and_map`: the exception set and edge-to-record
map of the non-expired, well-formed active exceptions. -/
def build_exception_set_and_map (active_exceptions : List ExceptionRec) (now : String) :
    List (String × String) × List ((String × String) × ExceptionRec) :=
  active_exceptions.foldl (besmStep now) ([], [])

/-- A violation record (`rule_id` and `exception` are always `None` in
the current format). -/
structure Violation where
  vtype : String
  edge : String × String
  rule_id : Option String
  reason : String
  exception : Option ExceptionRec
  deriving DecidableEq

/-- The `counts` dict of a rule-checker result. -/
structure RuleCounts where
  edges_added : Nat
  edges_removed : Nat
  forbidden_added : Nat
  forbidden_removed : Nat
  exception_allowed : Nat
  deriving DecidableEq

/-- A structured rule-checker error (`code`, `message`). -/
structure RuleError where
  code : String
  message : String
  deriving DecidableEq

/-- The dict `check_rules` returns. -/
structure RuleResult where
  ok : Bool
  forbidden_edges_added : List (String × String)
  forbidden_edges_removed : List (String × String)
  allowed_via_exception : List (String × String)
  violations : List Violation
  counts : RuleCounts
  error : Option RuleError
  deriving DecidableEq

/-- The error result `check_rules` returns when edge normalization
fails. -/
def ruleErrorResult (code msg : String) : RuleResult :=
  { ok := false
    forbidden_edges_added := []
    forbidden_edges_removed := []
    allowed_via_exception := []
    violations := []
    counts := { edges_added := 0, edges_removed := 0, forbidden_added := 0,
                forbidden_removed := 0, exception_allowed := 0 }
    error := some { code := code, message := msg } }

/-- The fields of a compare result that `check_rules` reads
(`compare_result.get("edges_added", [])`). -/
structure CompareEdges where
  edges_added : List JsonVal
  edges_removed : List JsonVal

/-- `check_rules`: subtract the allowed set from the added edges, split
off the exception-allowed part, and report violations.  `now` is the
`datetime.now(timezone.utc).isoformat()` read inside
`build_exception_set_and_map`. -/
def check_rules (compare_result : CompareEdges) (config : ArchConfig)
    (active_exceptions : List ExceptionRec) (now : String) : RuleResult :=
  match normalize_edge_input compare_result.edges_added with
  | .error e => ruleErrorResult "invalid_edges_added" e
  | .ok edges_added_set =>
    match normalize_edge_input compare_result.edges_removed with
    | .error e => ruleErrorResult "invalid_edges_removed" e
    | .ok edges_removed_set =>
      let allowed_set := build_allowed_set_from_rules config
      let exception_set := (build_exception_set_and_map active_exceptions now).1
      let forbidden_added_set :=
        if !config.deny_by_default ∧ allowed_set.length = 0 then ([] : List (String × String))
        else setDiff edges_added_set allowed_set
      let exception_allowed_set := setInter forbidden_added_set exception_set
      let forbidden_added_final_set := setDiff forbidden_added_set exception_allowed_set
      let forbidden_removed_set : List (String × String) := []
      let forbidden_edges_added := sortEdges forbidden_added_final_set
      let forbidden_edges_removed := sortEdges forbidden_removed_set
      let allowed_via_exception := sortEdges exception_allowed_set
      let violations := (sortEdges forbidden_added_final_set).map
        (fun e => { vtype := "forbidden_added", edge := e, rule_id := none,
                    reason := "Edge not in allowed_rules.json", exception := none : Violation })
      let ok := forbidden_added_final_set.length = 0 ∧ forbidden_removed_set.length = 0
      { ok := ok
        forbidden_edges_added := forbidden_edges_added
        forbidden_edges_removed := forbidden_edges_removed
        allowed_via_exception := allowed_via_exception
        violations := violations
        counts := { edges_added := edges_added_set.length,
                    edges_removed := edges_removed_set.length,
                    forbidden_added := forbidden_added_final_set.length,
                    forbidden_removed := forbidden_removed_set.length,
                    exception_allowed := exception_allowed_set.length }
        error := none }

/-! ## Cycle detector (backend/utils/cycle_detector.py) -/

/-- The scan for the index of the lexicographically smallest module:
strict `<` keeps the first occurrence.  State is the current
`(min_module, min_idx)` pair; `i` is the index of the head of the
remaining list. -/
def minLoop : List String → String × Nat → Nat → String × Nat
  | [], acc, _ => acc
  | x :: xs, acc, i =>
    if strLtB x acc.1 then minLoop xs (x, i) (i + 1) else minLoop xs acc (i + 1)

/-- The index of the first occurrence of the smallest element
(`min_idx` after the scan). -/
def minPair : List String → String × Nat
  | [] => ("", 0)
  | x :: xs => minLoop xs (x, 0) 1

/-- `cycle[min_idx:] + cycle[:min_idx]`. -/
def rotToMin (cycle : List String) : List String :=
  let m := (minPair cycle).2
  cycle.drop m ++ cycle.take m

/-- `canonicalise_cycle`: rotate so the smallest module is first, then
keep the lexicographically smaller of the forward and the reversed
(itself rotated to its own smallest start) tuple. -/
def canonicalise_cycle (cycle : List String) : List String :=
  match cycle with
  | [] => []
  | [x] => [x]
  | _ =>
    let forward_rotated := rotToMin cycle
    let reversed_rotated := rotToMin cycle.reverse
    if listStrLtB reversed_rotated forward_rotated then reversed_rotated
    else forward_rotated

/-- The mutable state of the DFS in `detect_cycles`. -/
structure DfsState where
  visited_complete : List String
  cycles_set : List (List String)
  truncated : Bool

/-- `dfs_cycles`: the recursive cycle search.  `path` is the current
stack; re-entering a vertex on the path emits the canonicalized slice
from its first occurrence.  The recursion depth is bounded by the number
of vertices (the path is duplicate-free), so any fuel of at least
`|nodes| + 1` reproduces the Python recursion; the bound invariants
proved below hold for every fuel. -/
def dfs_cycles (adj : String → List String) (max_cycles : Int) :
    Nat → String → List String → DfsState → DfsState
  | 0, _, _, st => st
  | fuel + 1, node, path, st =>
    if st.truncated then st
    else if node ∈ path then
      let cycle_path := path.drop (path.indexOf node)
      let canonical := canonicalise_cycle cycle_path
      let cycles' := setAdd st.cycles_set canonical
      { st with cycles_set := cycles',
                truncated := decide ((max_cycles : Int) ≤ (cycles'.length : Int)) }
    else if node ∈ st.visited_complete then st
    else
      let path' := path ++ [node]
      let st' := (adj node).foldl
        (fun s neighbor => dfs_cycles adj max_cycles fuel neighbor path' s) st
      if st'.truncated then st'
      else { st' with visited_complete := setAdd st'.visited_complete node }

/-- The dict `detect_cycles` returns. -/
structure CycleResult where
  cycles : List (List String)
  cycles_count : Nat
  truncated : Bool
  deriving DecidableEq

/-- Adjacency lists with sorted successors, from the edge set. -/
def adjacencyOf (edge_set : List (String × String)) (node : String) : List String :=
  sortStrings ((edge_set.filter (fun e => e.1 = node)).map Prod.snd)

/-- All nodes of the edge set (sources and targets, first occurrence
order). -/
def allNodesOf (edge_set : List (String × String)) : List String :=
  edge_set.foldl (fun s e => setAdd (setAdd s e.1) e.2) []

/-- `detect_cycles`: DFS from every node in sorted order, stopping once
`max_cycles` unique canonical cycles have been found.  Invalid edge
input yields the empty result. -/
def detect_cycles (edges : List JsonVal) (max_cycles : Int) : CycleResult :=
  match normalize_edge_input edges with
  | .error _ => { cycles := [], cycles_count := 0, truncated := false }
  | .ok edge_set =>
    if edge_set.isEmpty then { cycles := [], cycles_count := 0, truncated := false }
    else
      let adj := adjacencyOf edge_set
      let all_nodes := sortStrings (allNodesOf edge_set)
      let fuel := all_nodes.length + 1
      let final := all_nodes.foldl
        (fun st start_node =>
          if start_node ∉ st.visited_complete ∧ st.truncated = false then
            dfs_cycles adj max_cycles fuel start_node [] st
          else st)
        { visited_complete := [], cycles_set := [], truncated := false }
      let cycles_list := sortCycles final.cycles_set
      { cycles := cycles_list, cycles_count := cycles_list.length,
        truncated := final.truncated }

/-! ## Drift classifier (backend/utils/drift_classifier.py) -/

/-- The `counts` sub-dict of a compare result, as the classifier reads
it (`none` embeds a missing key). -/
structure CompareCounts where
  divergence : Option Int
  absence : Option Int
  deriving DecidableEq

/-- The fields of the `compare` input the classifier reads. -/
structure CompareIn where
  counts : Option CompareCounts
  edges_added : List JsonVal
  edges_removed : List JsonVal

/-- The `counts` sub-dict of a rules result, as the classifier reads it. -/
structure RulesCounts where
  forbidden_added : Option Int
  forbidden_removed : Option Int
  deriving DecidableEq

/-- The fields of the `rules` input the classifier reads. -/
structure RulesIn where
  error : Option JsonVal
  counts : Option RulesCounts
  forbidden_edges_added : List JsonVal
  forbidden_edges_removed : List JsonVal

/-- The `counts` sub-dict of a cycles result, as the classifier reads it. -/
structure CyclesCounts where
  cycles_added_count : Option Int
  cycles_removed_count : Option Int
  deriving DecidableEq

/-- The fields of the `cycles` input the classifier reads. -/
structure CyclesIn where
  counts : Option CyclesCounts
  cycles_added : List JsonVal
  cycles_removed : List JsonVal

/-- The classifier's input dict (`analysis.get(...)`; `none` embeds a
missing key). -/
structure AnalysisIn where
  compare : Option CompareIn
  rules : Option RulesIn
  cycles : Option CyclesIn

/-- The `summary` dict of a classification. -/
structure DriftSummary where
  edges_added_count : Int
  edges_removed_count : Int
  forbidden_edges_added_count : Int
  forbidden_edges_removed_count : Int
  cycles_added_count : Int
  cycles_removed_count : Int
  deriving DecidableEq

/-- The dict `classify_drift` returns. -/
structure Classification where
  classification : String
  reason_codes : List String
  summary : DriftSummary
  deriving DecidableEq

/-- `compare.get("counts", {}).get("divergence", len(compare.get("edges_added", [])))`. -/
def extractEA (c : CompareIn) : Int :=
  ((c.counts.map (·.divergence)).join).getD (c.edges_added.length : Int)

/-- Extraction of the `absence` count with the `edges_removed` length
fallback. -/
def extractER (c : CompareIn) : Int :=
  ((c.counts.map (·.absence)).join).getD (c.edges_removed.length : Int)

/-- Extraction of the `forbidden_added` count with the list-length
fallback. -/
def extractFA (r : RulesIn) : Int :=
  ((r.counts.map (·.forbidden_added)).join).getD (r.forbidden_edges_added.length : Int)

/-- Extraction of the `forbidden_removed` count with the list-length
fallback. -/
def extractFR (r : RulesIn) : Int :=
  ((r.counts.map (·.forbidden_removed)).join).getD (r.forbidden_edges_removed.length : Int)

/-- Extraction of the `cycles_added_count` with the list-length
fallback. -/
def extractCA (cy : CyclesIn) : Int :=
  ((cy.counts.map (·.cycles_added_count)).join).getD (cy.cycles_added.length : Int)

/-- Extraction of the `cycles_removed_count` with the list-length
fallback. -/
def extractCR (cy : CyclesIn) : Int :=
  ((cy.counts.map (·.cycles_removed_count)).join).getD (cy.cycles_removed.length : Int)

/-- `classify_drift`: missing data gives `unknown`; then `no_change`,
`negative` (risk-first), `positive`, `needs_review` in that order. -/
def classify_drift (analysis : AnalysisIn) : Classification :=
  let missing :=
    (if analysis.compare.isNone then ["missing_compare"] else []) ++
    (match analysis.rules with
     | none => ["missing_rules"]
     | some r => if r.error.isSome then ["missing_rules"] else []) ++
    (if analysis.cycles.isNone then ["missing_cycles"] else [])
  match analysis.compare, analysis.rules, analysis.cycles with
  | some compare, some rules, some cycles =>
    if missing ≠ [] then
      { classification := "unknown", reason_codes := sortStrings missing,
        summary := { edges_added_count := 0, edges_removed_count := 0,
                     forbidden_edges_added_count := 0, forbidden_edges_removed_count := 0,
                     cycles_added_count := 0, cycles_removed_count := 0 } }
    else
      let EA := extractEA compare
      let ER := extractER compare
      let FA := extractFA rules
      let FR := extractFR rules
      let CA := extractCA cycles
      let CR := extractCR cycles
      let summary : DriftSummary :=
        { edges_added_count := EA, edges_removed_count := ER,
          forbidden_edges_added_count := FA, forbidden_edges_removed_count := FR,
          cycles_added_count := CA, cycles_removed_count := CR }
      if EA = 0 ∧ ER = 0 ∧ CA = 0 ∧ CR = 0 then
        { classification := "no_change", reason_codes := [], summary := summary }
      else if 0 < FA ∨ 0 < CA then
        { classification := "negative",
          reason_codes := sortStrings
            ((if 0 < FA then ["forbidden_edges_added"] else []) ++
             (if 0 < CA then ["cycles_added"] else [])),
          summary := summary }
      else if 0 < FR ∨ 0 < CR then
        { classification := "positive",
          reason_codes := sortStrings
            ((if 0 < FR then ["forbidden_edges_removed"] else []) ++
             (if 0 < CR then ["cycles_removed"] else [])),
          summary := summary }
      else
        { classification := "needs_review", reason_codes := ["allowed_edges_changed"],
          summary := summary }
  | _, _, _ =>
    { classification := "unknown", reason_codes := sortStrings missing,
      summary := { edges_added_count := 0, edges_removed_count := 0,
                   forbidden_edges_added_count := 0, forbidden_edges_removed_count := 0,
                   cycles_added_count := 0, cycles_removed_count := 0 } }

/-- The value a valid edge dict carries: non-empty string `"from"` and
`"to"` fields.  This is the per-element content of the validation in
`normalize_edges` / `normalize_edge_input`. -/
def edgeOfJson : JsonVal → Option (String × String)
  | .obj fields =>
    match lookupField fields "from", lookupField fields "to" with
    | some (.str f), some (.str t) =>
      if f = "" ∨ t = "" then none else some (f, t)
    | _, _ => none
  | _ => none

/-- A strict total order packaged as a Boolean comparison: irreflexive,
asymmetric, connex (two incomparable elements are equal) and
transitive.  Python's `<` on strings and tuples satisfies this. -/
structure StrictOrdB (α : Type) (lt : α → α → Bool) : Prop where
  irrefl : ∀ a, lt a a = false
  asymm : ∀ a b, lt a b = true → lt b a = false
  conn : ∀ a b, lt a b = false → lt b a = false → a = b
  trans : ∀ a b c, lt a b = true → lt b c = true → lt a c = true

/-! # Theorems -/

/-! ## Order infrastructure -/

theorem lexLtB_irrefl [DecidableEq α] (lt : α → α → Bool) (h : StrictOrdB α lt) :
    ∀ l, lexLtB lt l l = false := by
  intro l
  induction l with
  | nil => rfl
  | cons a as ih => simp [lexLtB, h.irrefl a, ih]

theorem lexLtB_asymm [DecidableEq α] (lt : α → α → Bool) (h : StrictOrdB α lt) :
    ∀ a b, lexLtB lt a b = true → lexLtB lt b a = false := by
  intro a
  induction a with
  | nil =>
    intro b hb
    cases b with
    | nil => simpa [lexLtB] using hb
    | cons c cs => rfl
  | cons x xs ih =>
    intro b hb
    cases b with
    | nil => simp [lexLtB] at hb
    | cons y ys =>
      by_cases hxy : lt x y = true
      · have hyx := h.asymm x y hxy
        have hne : y ≠ x := by
          intro e; subst e; rw [h.irrefl] at hxy; exact Bool.false_ne_true hxy
        simp [lexLtB, hyx, hne]
      · by_cases hse : x = y
        · subst hse
          have hrec : lexLtB lt xs ys = true := by
            simpa [lexLtB, hxy] using hb
          simp [lexLtB, h.irrefl, ih ys hrec]
        · simp [lexLtB, hxy, hse] at hb

theorem lexLtB_conn [DecidableEq α] (lt : α → α → Bool) (h : StrictOrdB α lt) :
    ∀ a b, lexLtB lt a b = false → lexLtB lt b a = false → a = b := by
  intro a
  induction a with
  | nil =>
    intro b h1 _
    cases b with
    | nil => rfl
    | cons c cs => simp [lexLtB] at h1
  | cons x xs ih =>
    intro b h1 h2
    cases b with
    | nil => simp [lexLtB] at h2
    | cons y ys =>
      by_cases hxy : lt x y = true
      · simp [lexLtB, hxy] at h1
      · by_cases hyx : lt y x = true
        · simp [lexLtB, hyx] at h2
        · have hxe : x = y := h.conn x y (Bool.eq_false_iff.mpr hxy) (Bool.eq_false_iff.mpr hyx)
          subst hxe
          have r1 : lexLtB lt xs ys = false := by simpa [lexLtB, h.irrefl] using h1
          have r2 : lexLtB lt ys xs = false := by simpa [lexLtB, h.irrefl] using h2
          rw [ih ys r1 r2]

theorem lexLtB_trans [DecidableEq α] (lt : α → α → Bool) (h : StrictOrdB α lt) :
    ∀ a b c, lexLtB lt a b = true → lexLtB lt b c = true → lexLtB lt a c = true := by
  intro a
  induction a with
  | nil =>
    intro b c hab hbc
    cases c with
    | nil =>
      cases b with
      | nil => simpa [lexLtB] using hab
      | cons y ys => simp [lexLtB] at hbc
    | cons z zs => rfl
  | cons x xs ih =>
    intro b c hab hbc
    cases b with
    | nil => simp [lexLtB] at hab
    | cons y ys =>
      cases c with
      | nil => simp [lexLtB] at hbc
      | cons z zs =>
        by_cases hxy : lt x y = true
        · by_cases hyz : lt y z = true
          · simp [lexLtB, h.trans x y z hxy hyz]
          · by_cases hye : y = z
            · subst hye; simp [lexLtB, hxy]
            · simp [lexLtB, hyz, hye] at hbc
        · by_cases hxe : x = y
          · subst hxe
            have hr1 : lexLtB lt xs ys = true := by simpa [lexLtB, hxy] using hab
            by_cases hyz : lt x z = true
            · simp [lexLtB, hyz]
            · by_cases hye : x = z
              · subst hye
                have hr2 : lexLtB lt ys zs = true := by simpa [lexLtB, hyz] using hbc
                simp [lexLtB, h.irrefl, ih ys zs hr1 hr2]
              · simp [lexLtB, hyz, hye] at hbc
          · simp [lexLtB, hxy, hxe] at hab

theorem lexLtB_ord [DecidableEq α] (lt : α → α → Bool) (h : StrictOrdB α lt) :
    StrictOrdB (List α) (lexLtB lt) :=
  ⟨lexLtB_irrefl lt h, lexLtB_asymm lt h, lexLtB_conn lt h, lexLtB_trans lt h⟩

theorem charLtB_iff (a b : Char) : charLtB a b = true ↔ a.toNat < b.toNat := by
  unfold charLtB; rw [Nat.blt_eq]

theorem charLtB_false_iff (a b : Char) : charLtB a b = false ↔ ¬ a.toNat < b.toNat := by
  rw [← charLtB_iff]; cases h : charLtB a b <;> simp

theorem charLtB_ord : StrictOrdB Char charLtB := by
  constructor
  · intro a
    exact (charLtB_false_iff a a).mpr (Nat.lt_irrefl _)
  · intro a b hab
    have h1 := (charLtB_iff a b).mp hab
    exact (charLtB_false_iff b a).mpr (Nat.not_lt.mpr (Nat.le_of_lt h1))
  · intro a b hab hba
    have h1 := (charLtB_false_iff a b).mp hab
    have h2 := (charLtB_false_iff b a).mp hba
    have := Nat.le_antisymm (Nat.not_lt.mp h2) (Nat.not_lt.mp h1)
    exact Char.eq_of_val_eq (UInt32.toNat.inj this)
  · intro a b c hab hbc
    exact (charLtB_iff a c).mpr
      (Nat.lt_trans ((charLtB_iff a b).mp hab) ((charLtB_iff b c).mp hbc))

theorem string_eq_of_data (a b : String) (h : a.data = b.data) : a = b := by
  cases a; cases b; simp only at h; rw [h]

theorem strLtB_ord : StrictOrdB String strLtB := by
  have hc := lexLtB_ord charLtB charLtB_ord
  constructor
  · intro a; exact hc.irrefl a.data
  · intro a b hab; exact hc.asymm a.data b.data hab
  · intro a b hab hba; exact string_eq_of_data a b (hc.conn a.data b.data hab hba)
  · intro a b c hab hbc; exact hc.trans a.data b.data c.data hab hbc

theorem listStrLtB_ord : StrictOrdB (List String) listStrLtB :=
  lexLtB_ord strLtB strLtB_ord

theorem edgeLtB_ord : StrictOrdB (String × String) edgeLtB := by
  have hs := strLtB_ord
  constructor
  · intro a; simp [edgeLtB, hs.irrefl]
  · intro a b hab
    by_cases h1 : strLtB a.1 b.1 = true
    · have := hs.asymm _ _ h1
      have hne : b.1 ≠ a.1 := by
        intro e; rw [e] at h1; rw [hs.irrefl] at h1; exact Bool.false_ne_true h1
      simp [edgeLtB, this, hne]
    · by_cases he : a.1 = b.1
      · have h2 : strLtB a.2 b.2 = true := by simpa [edgeLtB, h1, he, hs.irrefl] using hab
        simp [edgeLtB, he, hs.irrefl, hs.asymm _ _ h2]
      · simp [edgeLtB, h1, he] at hab
  · intro a b hab hba
    by_cases h1 : strLtB a.1 b.1 = true
    · simp [edgeLtB, h1] at hab
    · by_cases h2 : strLtB b.1 a.1 = true
      · simp [edgeLtB, h2] at hba
      · have he : a.1 = b.1 :=
          hs.conn _ _ (Bool.eq_false_iff.mpr h1) (Bool.eq_false_iff.mpr h2)
        have r1 : strLtB a.2 b.2 = false := by simpa [edgeLtB, h1, he, hs.irrefl] using hab
        have r2 : strLtB b.2 a.2 = false := by simpa [edgeLtB, h2, he.symm, hs.irrefl] using hba
        have he2 : a.2 = b.2 := hs.conn _ _ r1 r2
        exact Prod.ext he he2
  · intro a b c hab hbc
    by_cases h1 : strLtB a.1 b.1 = true
    · by_cases h2 : strLtB b.1 c.1 = true
      · simp [edgeLtB, hs.trans _ _ _ h1 h2]
      · by_cases he : b.1 = c.1
        · rw [he] at h1; simp [edgeLtB, h1]
        · simp [edgeLtB, h2, he] at hbc
    · by_cases he : a.1 = b.1
      · have r1 : strLtB a.2 b.2 = true := by simpa [edgeLtB, h1, he, hs.irrefl] using hab
        by_cases h2 : strLtB b.1 c.1 = true
        · rw [← he] at h2; simp [edgeLtB, h2]
        · by_cases he2 : b.1 = c.1
          · have r2 : strLtB b.2 c.2 = true := by simpa [edgeLtB, h2, he2, hs.irrefl] using hbc
            rw [← he] at h2 he2
            simp [edgeLtB, h2, he2, hs.trans _ _ _ r1 r2]
          · simp [edgeLtB, h2, he2] at hbc
      · simp [edgeLtB, h1, he] at hab

theorem leB_total {α : Type} {lt : α → α → Bool} (h : StrictOrdB α lt) (a b : α) :
    (!(lt b a)) = true ∨ (!(lt a b)) = true := by
  by_cases hab : lt a b = true
  · left; simp [h.asymm a b hab]
  · right; simp [Bool.eq_false_iff.mpr hab]

theorem leB_antisymm {α : Type} {lt : α → α → Bool} (h : StrictOrdB α lt) (a b : α)
    (h1 : (!(lt b a)) = true) (h2 : (!(lt a b)) = true) : a = b :=
  h.conn a b (by simpa using h2) (by simpa using h1)

theorem leB_trans {α : Type} {lt : α → α → Bool} (h : StrictOrdB α lt) (a b c : α)
    (h1 : (!(lt b a)) = true) (h2 : (!(lt c b)) = true) : (!(lt c a)) = true := by
  have hba : lt b a = false := by simpa using h1
  have hcb : lt c b = false := by simpa using h2
  by_cases hca : lt c a = true
  · by_cases hab : lt a b = true
    · have := h.trans c a b hca hab
      rw [this] at hcb; cases hcb
    · have hae : a = b := h.conn a b (Bool.eq_false_iff.mpr hab) hba
      subst hae
      rw [hca] at hcb; cases hcb
  · simp [Bool.eq_false_iff.mpr hca]

instance : IsTotal String strLe :=
  ⟨fun a b => by unfold strLe strLeB; exact (leB_total strLtB_ord b a).symm⟩

instance : IsTrans String strLe :=
  ⟨fun a b c h1 h2 => by
    unfold strLe strLeB at h1 h2 ⊢
    exact leB_trans strLtB_ord a b c h1 h2⟩

instance : IsAntisymm String strLe :=
  ⟨fun a b h1 h2 => by
    unfold strLe strLeB at h1 h2
    exact leB_antisymm strLtB_ord a b h1 h2⟩

instance : IsTotal (String × String) edgeLe :=
  ⟨fun a b => by unfold edgeLe edgeLeB; exact (leB_total edgeLtB_ord b a).symm⟩

instance : IsTrans (String × String) edgeLe :=
  ⟨fun a b c h1 h2 => by
    unfold edgeLe edgeLeB at h1 h2 ⊢
    exact leB_trans edgeLtB_ord a b c h1 h2⟩

instance : IsAntisymm (String × String) edgeLe :=
  ⟨fun a b h1 h2 => by
    unfold edgeLe edgeLeB at h1 h2
    exact leB_antisymm edgeLtB_ord a b h1 h2⟩

instance : IsTotal (List String) listStrLe :=
  ⟨fun a b => by unfold listStrLe listStrLeB; exact (leB_total listStrLtB_ord b a).symm⟩

instance : IsTrans (List String) listStrLe :=
  ⟨fun a b c h1 h2 => by
    unfold listStrLe listStrLeB at h1 h2 ⊢
    exact leB_trans listStrLtB_ord a b c h1 h2⟩

instance : IsAntisymm (List String) listStrLe :=
  ⟨fun a b h1 h2 => by
    unfold listStrLe listStrLeB at h1 h2
    exact leB_antisymm listStrLtB_ord a b h1 h2⟩

/-! ## Set-embedding lemmas -/

theorem mem_setAdd [DecidableEq α] (s : List α) (x y : α) :
    y ∈ setAdd s x ↔ y ∈ s ∨ y = x := by
  unfold setAdd
  by_cases h : x ∈ s
  · simp only [if_pos h]
    constructor
    · exact Or.inl
    · rintro (hy | rfl)
      · exact hy
      · exact h
  · simp [if_neg h]

theorem nodup_setAdd [DecidableEq α] (s : List α) (x : α) (h : s.Nodup) :
    (setAdd s x).Nodup := by
  unfold setAdd
  by_cases hx : x ∈ s
  · simpa [if_pos hx]
  · simp only [if_neg hx, List.nodup_append]
    exact ⟨h, by simp, by simpa using hx⟩

theorem mem_foldl_setAdd [DecidableEq α] (l : List α) :
    ∀ (acc : List α) (y : α), y ∈ l.foldl setAdd acc ↔ y ∈ acc ∨ y ∈ l := by
  induction l with
  | nil => intro acc y; simp
  | cons x xs ih =>
    intro acc y
    rw [List.foldl_cons, ih (setAdd acc x) y, mem_setAdd]
    constructor
    · rintro ((hy | rfl) | hy)
      · exact Or.inl hy
      · exact Or.inr (List.mem_cons_self _ _)
      · exact Or.inr (List.mem_cons_of_mem _ hy)
    · rintro (hy | hy)
      · exact Or.inl (Or.inl hy)
      · rcases List.mem_cons.mp hy with rfl | hy
        · exact Or.inl (Or.inr rfl)
        · exact Or.inr hy

theorem nodup_foldl_setAdd [DecidableEq α] (l : List α) :
    ∀ (acc : List α), acc.Nodup → (l.foldl setAdd acc).Nodup := by
  induction l with
  | nil => intro acc h; simpa
  | cons x xs ih => intro acc h; exact ih (setAdd acc x) (nodup_setAdd acc x h)

theorem foldl_setAdd_nil_eq_nil [DecidableEq α] (l : List α) :
    l.foldl setAdd [] = [] ↔ l = [] := by
  constructor
  · intro h
    cases l with
    | nil => rfl
    | cons x xs =>
      have hx : x ∈ (x :: xs).foldl setAdd ([] : List α) :=
        (mem_foldl_setAdd _ _ _).mpr (Or.inr (List.mem_cons_self _ _))
      rw [h] at hx
      cases hx
  · rintro rfl; rfl

/-! ## Sorting lemmas -/

theorem sortEdges_perm (l : List (String × String)) : List.Perm (sortEdges l) l :=
  List.perm_insertionSort edgeLe l

theorem sortEdges_sorted (l : List (String × String)) : (sortEdges l).Sorted edgeLe :=
  List.sorted_insertionSort edgeLe l

theorem sortEdges_eq_of_perm (l l' : List (String × String)) (h : List.Perm l l') :
    sortEdges l = sortEdges l' :=
  List.eq_of_perm_of_sorted ((sortEdges_perm l).trans (h.trans (sortEdges_perm l').symm))
    (sortEdges_sorted l) (sortEdges_sorted l')

theorem sortEdges_eq_self_of_sorted (l : List (String × String)) (h : l.Sorted edgeLe) :
    sortEdges l = l :=
  List.eq_of_perm_of_sorted (sortEdges_perm l) (sortEdges_sorted l) h

theorem sortCycles_perm (l : List (List String)) : List.Perm (sortCycles l) l :=
  List.perm_insertionSort listStrLe l

theorem sortStrings_perm (l : List String) : List.Perm (sortStrings l) l :=
  List.perm_insertionSort strLe l

/-- Two duplicate-free lists with the same members sort to the same
list. -/
theorem sortEdges_eq_of_same_mem (l l' : List (String × String))
    (hn : l.Nodup) (hn' : l'.Nodup) (hm : ∀ x, x ∈ l ↔ x ∈ l') :
    sortEdges l = sortEdges l' :=
  sortEdges_eq_of_perm l l' ((List.perm_ext_iff_of_nodup hn hn').mpr hm)

/-! ## `normalize_repo_path` lemmas (C6) -/

theorem collapseOnce_length_le (s : List Char) : (collapseOnce s).length ≤ s.length := by
  induction s using collapseOnce.induct with
  | case1 rest ih => simp only [collapseOnce, List.length_cons]; omega
  | case2 c rest h ih => simp only [collapseOnce, List.length_cons]; omega
  | case3 => simp [collapseOnce]

theorem collapseOnce_length_lt (s : List Char) (h : hasDoubleSlash s = true) :
    (collapseOnce s).length < s.length := by
  induction s using collapseOnce.induct with
  | case1 rest ih =>
    have := collapseOnce_length_le rest
    simp only [collapseOnce, List.length_cons]; omega
  | case2 c rest hne ih =>
    have hr : hasDoubleSlash rest = true := by
      cases rest with
      | nil => simpa [hasDoubleSlash] using h
      | cons d ds =>
        by_cases hc : c = '/'
        · by_cases hd : d = '/'
          · exact absurd rfl (by subst hc; subst hd; exact fun e => hne ds e rfl)
          · subst hc
            cases ds with
            | nil => simp [hasDoubleSlash, hd] at h
            | cons e es =>
              simpa [hasDoubleSlash, hd] using h
        · simpa [hasDoubleSlash, hc] using h
    have := ih hr
    simp only [collapseOnce, List.length_cons]; omega
  | case3 => simp [hasDoubleSlash] at h

theorem collapseOnce_mem (s : List Char) (c : Char) (h : c ∈ collapseOnce s) : c ∈ s := by
  induction s using collapseOnce.induct with
  | case1 rest ih =>
    rcases List.mem_cons.mp (by simpa [collapseOnce] using h) with rfl | hm
    · exact List.mem_cons_self _ _
    · exact List.mem_cons_of_mem _ (List.mem_cons_of_mem _ (ih hm))
  | case2 d rest hne ih =>
    rcases List.mem_cons.mp (by simpa [collapseOnce] using h) with rfl | hm
    · exact List.mem_cons_self _ _
    · exact List.mem_cons_of_mem _ (ih hm)
  | case3 => simpa [collapseOnce] using h

theorem collapseFuel_no_ds (fuel : Nat) :
    ∀ s : List Char, s.length ≤ fuel → hasDoubleSlash (collapseFuel fuel s) = false := by
  induction fuel with
  | zero =>
    intro s hs
    have : s = [] := List.eq_nil_of_length_eq_zero (Nat.le_zero.mp hs)
    subst this; rfl
  | succ n ih =>
    intro s hs
    by_cases h : hasDoubleSlash s = true
    · have hlt := collapseOnce_length_lt s h
      simpa [collapseFuel, h] using ih (collapseOnce s) (by omega)
    · simpa [collapseFuel, Bool.eq_false_iff.mpr h] using Bool.eq_false_iff.mpr h

theorem collapseFuel_id_of_no_ds (fuel : Nat) (s : List Char)
    (h : hasDoubleSlash s = false) : collapseFuel fuel s = s := by
  cases fuel with
  | zero => rfl
  | succ n => simp [collapseFuel, h]

theorem collapseFuel_mem (fuel : Nat) :
    ∀ (s : List Char) (c : Char), c ∈ collapseFuel fuel s → c ∈ s := by
  induction fuel with
  | zero => intro s c h; simpa [collapseFuel] using h
  | succ n ih =>
    intro s c h
    by_cases hds : hasDoubleSlash s = true
    · exact collapseOnce_mem s c (ih (collapseOnce s) c (by simpa [collapseFuel, hds] using h))
    · simpa [collapseFuel, Bool.eq_false_iff.mpr hds] using h

theorem collapseSlashes_no_ds (s : List Char) :
    hasDoubleSlash (collapseSlashes s) = false :=
  collapseFuel_no_ds s.length s (Nat.le_refl _)

theorem collapseSlashes_mem (s : List Char) (c : Char) (h : c ∈ collapseSlashes s) : c ∈ s :=
  collapseFuel_mem s.length s c h

theorem stripLeadingSlash_mem (l : List Char) (c : Char)
    (h : c ∈ stripLeadingSlash l) : c ∈ l := by
  unfold stripLeadingSlash at h
  split at h
  · exact List.mem_cons_of_mem _ h
  · exact h

/-- No backslash survives the first step of `normalize_repo_path`. -/
theorem normalize_repo_path_no_backslash (p : String) :
    '\\' ∉ (normalize_repo_path p).data := by
  intro hmem
  unfold normalize_repo_path at hmem
  simp only at hmem
  have h3 := collapseSlashes_mem _ _ hmem
  have h1 : ∀ c ∈ p.data.map (fun c => if c = '\\' then '/' else c), c ≠ '\\' := by
    intro c hc
    rcases List.mem_map.mp hc with ⟨d, _, rfl⟩
    by_cases hd : d = '\\' <;> simp [hd]
  set s1 := p.data.map (fun c => if c = '\\' then '/' else c) with hs1
  have h2 : ∀ c, c ∈ (if s1.take 2 = ['.', '/'] then s1.drop 2 else s1) → c ∈ s1 := by
    intro c hc
    by_cases ht : s1.take 2 = ['.', '/']
    · exact List.mem_of_mem_drop (by simpa [ht] using hc)
    · simpa [ht] using hc
  set s2 := if s1.take 2 = ['.', '/'] then s1.drop 2 else s1 with hs2
  exact h1 '\\' (h2 _ (stripLeadingSlash_mem s2 _ h3)) rfl

theorem collapseSlashes_id_of_no_ds (s : List Char) (h : hasDoubleSlash s = false) :
    collapseSlashes s = s :=
  collapseFuel_id_of_no_ds s.length s h

theorem stripLeadingSlash_eq_self (l : List Char) (h : ¬ l.head? = some '/') :
    stripLeadingSlash l = l := by
  unfold stripLeadingSlash
  split
  · next rest => exact absurd rfl h
  · rfl

/-- C6 (amended): `normalize_repo_path` is total and its result never
contains duplicate slashes; and whenever the result starts with neither
`./` nor `/` the function is idempotent there.  (Idempotence and the
leading-prefix guarantees fail in general: see the counterexample.) -/
theorem normalize_repo_path_no_ds_and_conditional_idem (p : String) :
    hasDoubleSlash (normalize_repo_path p).data = false ∧
    ((normalize_repo_path p).data.take 2 ≠ ['.', '/'] →
      ¬ (normalize_repo_path p).data.head? = some '/' →
      normalize_repo_path (normalize_repo_path p) = normalize_repo_path p) := by
  constructor
  · exact collapseSlashes_no_ds _
  · intro htake hhead
    have hnb := normalize_repo_path_no_backslash p
    set q := normalize_repo_path p with hq
    have h1 : q.data.map (fun c => if c = '\\' then '/' else c) = q.data := by
      have hm : ∀ c ∈ q.data, (fun c => if c = '\\' then '/' else c) c = id c := by
        intro c hc
        have : c ≠ '\\' := fun e => hnb (e ▸ hc)
        simp [this]
      rw [List.map_congr_left hm, List.map_id]
    have hds : hasDoubleSlash q.data = false := by
      rw [hq]; exact collapseSlashes_no_ds _
    unfold normalize_repo_path
    simp only
    rw [h1, if_neg htake, stripLeadingSlash_eq_self _ hhead, collapseSlashes_id_of_no_ds _ hds]

/-- C6 counterexample: `normalize_repo_path` strips only one leading
slash before collapsing, so `"//a"` normalizes to `"/a"` — the result
has a leading `/` and a second application changes it again. -/
theorem normalize_repo_path_not_idempotent_counterexample :
    normalize_repo_path "//a" = "/a" ∧
    normalize_repo_path (normalize_repo_path "//a") ≠ normalize_repo_path "//a" := by
  constructor
  · decide
  · decide

theorem normalize_repo_path_no_ds_and_conditional_idem_witness :
    hasDoubleSlash (normalize_repo_path "src//ui/file.ts").data = false ∧
    normalize_repo_path (normalize_repo_path "src//ui/file.ts") =
      normalize_repo_path "src//ui/file.ts" :=
  ⟨(normalize_repo_path_no_ds_and_conditional_idem "src//ui/file.ts").1,
   (normalize_repo_path_no_ds_and_conditional_idem "src//ui/file.ts").2
     (by decide) (by decide)⟩

/-! ## Digest length lemmas (C1) -/

theorem sha256Round_length (st : List Nat) (kw : Nat × Nat) :
    (sha256Round st kw).length = st.length := by
  unfold sha256Round
  split
  · rfl
  · rfl

theorem foldl_sha256Round_length (l : List (Nat × Nat)) :
    ∀ h : List Nat, (l.foldl sha256Round h).length = h.length := by
  induction l with
  | nil => intro h; rfl
  | cons kw rest ih =>
    intro h
    rw [List.foldl_cons, ih (sha256Round h kw), sha256Round_length]

theorem sha256Block_length (h block : List Nat) :
    (sha256Block h block).length = h.length := by
  unfold sha256Block
  simp only [List.length_map, List.length_zip, foldl_sha256Round_length, Nat.min_self]

theorem foldl_sha256Block_length (blocks : List (List Nat)) :
    ∀ h : List Nat, (blocks.foldl sha256Block h).length = h.length := by
  induction blocks with
  | nil => intro h; rfl
  | cons b rest ih =>
    intro h
    rw [List.foldl_cons, ih (sha256Block h b), sha256Block_length]

theorem sha256Words_length (msg : List Nat) : (sha256Words msg).length = 8 := by
  unfold sha256Words
  rw [foldl_sha256Block_length]
  rfl

theorem hexWord_length (n : Nat) : (hexWord n).length = 8 := by
  simp [hexWord]

theorem flatMap_hexWord_length (ws : List Nat) :
    (ws.flatMap hexWord).length = 8 * ws.length := by
  induction ws with
  | nil => rfl
  | cons w rest ih =>
    rw [List.flatMap_cons, List.length_append, hexWord_length, ih]
    simp only [List.length_cons]
    omega

theorem sha256Hex_length (msg : List Nat) : (sha256Hex msg).length = 64 := by
  unfold sha256Hex
  rw [flatMap_hexWord_length, sha256Words_length]

/-- C1 (amended): the baseline repo id (`compute_repo_id`) and the
snapshot content-address (`snapshot_id`) are 16 hex characters, but the
repo id that keys the onboarding-config and snapshot directories in
`backend/api/routes.py` is only the first **12** hex characters of
SHA-256 of the raw (uncanonicalized) request path. -/
theorem repo_id_and_snapshot_id_lengths (p moduleMapSha : String)
    (rulesHash baselineHash : Option String) :
    (compute_repo_id p).length = 16 ∧
    (snapshot_id moduleMapSha rulesHash baselineHash).length = 16 ∧
    (routes_repo_id p).length = 12 := by
  refine ⟨?_, ?_, ?_⟩
  · show ((sha256Hex (strBytes p)).take 16).length = 16
    rw [List.length_take, sha256Hex_length]; decide
  · show ((sha256Hex _).take 16).length = 16
    rw [List.length_take, sha256Hex_length]; decide
  · show ((sha256Hex (strBytes p)).take 12).length = 12
    rw [List.length_take, sha256Hex_length]; decide

/-- C1 counterexample: at the concrete repository path `"/tmp/repo"`,
the repo id computed by the onboarding/snapshot workers has 12
characters, not 16, and differs from the 16-hex baseline repo id. -/
theorem routes_repo_id_is_12_hex_counterexample :
    (routes_repo_id "/tmp/repo").length = 12 ∧
    routes_repo_id "/tmp/repo" ≠ compute_repo_id "/tmp/repo" := by
  constructor
  · decide
  · decide

/-! ## `normalize_edges` characterization (C3, C4) -/

theorem normalize_edges_loop_ok (edges : List JsonVal) :
    ∀ (i : Nat) (acc : List (String × String)),
      (∀ e ∈ edges, (edgeOfJson e).isSome) →
      normalize_edges_loop edges i acc =
        .ok ((edges.filterMap edgeOfJson).foldl setAdd acc) := by
  induction edges with
  | nil => intro i acc _; rfl
  | cons e rest ih =>
    intro i acc hall
    have he : (edgeOfJson e).isSome := hall e (List.mem_cons_self _ _)
    obtain ⟨⟨f, t⟩, hft⟩ := Option.isSome_iff_exists.mp he
    cases e with
    | obj fields =>
      simp only [edgeOfJson] at hft
      split at hft
      · next f' t' hf ht =>
        split at hft
        · cases hft
        · next hne =>
          have hfe : f' = "" → False := fun h => hne (Or.inl h)
          have hte : t' = "" → False := fun h => hne (Or.inr h)
          simp only [normalize_edges_loop, hf, ht]
          rw [if_neg hfe, if_neg hte]
          rw [ih (i + 1) (setAdd acc (f', t'))
            (fun e hm => hall e (List.mem_cons_of_mem _ hm))]
          have : (JsonVal.obj fields :: rest).filterMap edgeOfJson =
              (f', t') :: rest.filterMap edgeOfJson := by
            rw [List.filterMap_cons]
            simp only [edgeOfJson, hf, ht]
            rw [if_neg hne]
          rw [this, List.foldl_cons]
      · next hmm =>
        cases hft
    | null => cases hft
    | bool b => cases hft
    | int n => cases hft
    | float q => cases hft
    | str s => cases hft
    | arr l => cases hft

theorem normalize_edges_loop_ok_inv (edges : List JsonVal) :
    ∀ (i : Nat) (acc res : List (String × String)),
      normalize_edges_loop edges i acc = .ok res →
      (∀ e ∈ edges, (edgeOfJson e).isSome) ∧
        res = (edges.filterMap edgeOfJson).foldl setAdd acc := by
  induction edges with
  | nil =>
    intro i acc res h
    refine ⟨by simp, ?_⟩
    simpa [normalize_edges_loop] using h.symm
  | cons e rest ih =>
    intro i acc res h
    cases e with
    | obj fields =>
      cases hf : lookupField fields "from" with
      | none =>
        simp only [normalize_edges_loop, hf] at h
        exact Except.noConfusion h
      | some fv =>
        cases ht : lookupField fields "to" with
        | none =>
          simp only [normalize_edges_loop, hf, ht] at h
          exact Except.noConfusion h
        | some tv =>
          cases fv with
          | str f' =>
            cases tv with
            | str t' =>
              simp only [normalize_edges_loop, hf, ht] at h
              by_cases hfe : f' = ""
              · rw [if_pos hfe] at h; exact Except.noConfusion h
              · rw [if_neg hfe] at h
                by_cases hte : t' = ""
                · rw [if_pos hte] at h; exact Except.noConfusion h
                · rw [if_neg hte] at h
                  obtain ⟨hallr, hres⟩ := ih (i + 1) (setAdd acc (f', t')) res h
                  constructor
                  · intro x hx
                    rcases List.mem_cons.mp hx with rfl | hxr
                    · simp only [edgeOfJson, hf, ht]
                      rw [if_neg (by tauto)]
                      rfl
                    · exact hallr x hxr
                  · rw [hres]
                    have hstep : (JsonVal.obj fields :: rest).filterMap edgeOfJson =
                        (f', t') :: rest.filterMap edgeOfJson := by
                      rw [List.filterMap_cons]
                      simp only [edgeOfJson, hf, ht]
                      rw [if_neg (by tauto)]
                    rw [hstep, List.foldl_cons]
            | null => simp only [normalize_edges_loop, hf, ht] at h; exact Except.noConfusion h
            | bool b => simp only [normalize_edges_loop, hf, ht] at h; exact Except.noConfusion h
            | int n => simp only [normalize_edges_loop, hf, ht] at h; exact Except.noConfusion h
            | float q => simp only [normalize_edges_loop, hf, ht] at h; exact Except.noConfusion h
            | arr l => simp only [normalize_edges_loop, hf, ht] at h; exact Except.noConfusion h
            | obj o => simp only [normalize_edges_loop, hf, ht] at h; exact Except.noConfusion h
          | null => simp only [normalize_edges_loop, hf, ht] at h; exact Except.noConfusion h
          | bool b => simp only [normalize_edges_loop, hf, ht] at h; exact Except.noConfusion h
          | int n => simp only [normalize_edges_loop, hf, ht] at h; exact Except.noConfusion h
          | float q => simp only [normalize_edges_loop, hf, ht] at h; exact Except.noConfusion h
          | arr l => simp only [normalize_edges_loop, hf, ht] at h; exact Except.noConfusion h
          | obj o => simp only [normalize_edges_loop, hf, ht] at h; exact Except.noConfusion h
    | null => simp only [normalize_edges_loop] at h; exact Except.noConfusion h
    | bool b => simp only [normalize_edges_loop] at h; exact Except.noConfusion h
    | int n => simp only [normalize_edges_loop] at h; exact Except.noConfusion h
    | float q => simp only [normalize_edges_loop] at h; exact Except.noConfusion h
    | str sv => simp only [normalize_edges_loop] at h; exact Except.noConfusion h
    | arr l => simp only [normalize_edges_loop] at h; exact Except.noConfusion h

theorem normalize_edges_ok (edges : List JsonVal)
    (hall : ∀ e ∈ edges, (edgeOfJson e).isSome) :
    normalize_edges edges =
      .ok (sortEdges ((edges.filterMap edgeOfJson).foldl setAdd [])) := by
  unfold normalize_edges
  rw [normalize_edges_loop_ok edges 0 [] hall]
  rfl

theorem normalize_edges_ok_inv (edges : List JsonVal) (N : List (String × String))
    (h : normalize_edges edges = .ok N) :
    (∀ e ∈ edges, (edgeOfJson e).isSome) ∧
      N = sortEdges ((edges.filterMap edgeOfJson).foldl setAdd []) := by
  unfold normalize_edges at h
  cases hl : normalize_edges_loop edges 0 [] with
  | error e => rw [hl] at h; exact Except.noConfusion h
  | ok res =>
    rw [hl] at h
    obtain ⟨hall, hres⟩ := normalize_edges_loop_ok_inv edges 0 [] res hl
    refine ⟨hall, ?_⟩
    have : sortEdges res = N := by
      simpa [Except.map] using h
    rw [← this, hres]

theorem edgeOfJson_nonempty (e : JsonVal) (p : String × String)
    (h : edgeOfJson e = some p) : ¬ p.1 = "" ∧ ¬ p.2 = "" := by
  unfold edgeOfJson at h
  split at h
  · split at h
    · split at h
      · exact Option.noConfusion h
      · next hne =>
        cases h
        exact ⟨fun hf2 => hne (Or.inl hf2), fun ht2 => hne (Or.inr ht2)⟩
    · exact Option.noConfusion h
  · exact Option.noConfusion h

theorem mem_normalize_edges_ok (edges : List JsonVal) (N : List (String × String))
    (h : normalize_edges edges = .ok N) (x : String × String) :
    x ∈ N ↔ x ∈ edges.filterMap edgeOfJson := by
  obtain ⟨_, hN⟩ := normalize_edges_ok_inv edges N h
  rw [hN]
  rw [(sortEdges_perm _).mem_iff, mem_foldl_setAdd]
  simp

theorem normalize_edges_ok_props (edges : List JsonVal) (N : List (String × String))
    (h : normalize_edges edges = .ok N) :
    N.Nodup ∧ N.Sorted edgeLe ∧ sortEdges N = N ∧
      (∀ p ∈ N, ¬ p.1 = "" ∧ ¬ p.2 = "") := by
  obtain ⟨hall, hN⟩ := normalize_edges_ok_inv edges N h
  have hnd : N.Nodup := by
    rw [hN]
    exact (sortEdges_perm _).nodup_iff.mpr (nodup_foldl_setAdd _ _ List.nodup_nil)
  have hsorted : N.Sorted edgeLe := by rw [hN]; exact sortEdges_sorted _
  refine ⟨hnd, hsorted, sortEdges_eq_self_of_sorted N hsorted, ?_⟩
  intro p hp
  have := (mem_normalize_edges_ok edges N h p).mp hp
  rcases List.mem_filterMap.mp this with ⟨e, _, he⟩
  exact edgeOfJson_nonempty e p he

/-! ## C3: the baseline hash is a pure function of the edge set -/

/-- C3: for a list `E` of valid edges, any permutation of `E ++ E`
(shuffling plus duplication) normalizes — and therefore hashes —
identically to `E`; and the `baseline_hash_sha256` that `store_baseline`
returns does not depend on the `graph_stats` argument (nor on the
directory or the timestamp). -/
theorem baseline_hash_pure_function_of_edge_set
    (E E' : List JsonVal) (dir dir' now now' : String) (gs gs' : Option GraphStats)
    (hperm : List.Perm E' (E ++ E))
    (hvalid : ∀ e ∈ E, (edgeOfJson e).isSome) :
    normalize_edges E' = normalize_edges E ∧
    Except.map compute_baseline_hash_sha256 (normalize_edges E') =
      Except.map compute_baseline_hash_sha256 (normalize_edges E) ∧
    Except.map (fun r => r.2.baseline_hash_sha256) (store_baseline dir E gs now) =
      Except.map (fun r => r.2.baseline_hash_sha256) (store_baseline dir' E gs' now') := by
  have hvalid' : ∀ e ∈ E', (edgeOfJson e).isSome := by
    intro e he
    have := hperm.mem_iff.mp he
    rcases List.mem_append.mp this with h | h
    · exact hvalid e h
    · exact hvalid e h
  have hmain : normalize_edges E' = normalize_edges E := by
    rw [normalize_edges_ok E hvalid, normalize_edges_ok E' hvalid']
    have hmem : ∀ x, x ∈ (E'.filterMap edgeOfJson).foldl setAdd [] ↔
        x ∈ (E.filterMap edgeOfJson).foldl setAdd [] := by
      intro x
      rw [mem_foldl_setAdd, mem_foldl_setAdd]
      simp only [List.not_mem_nil, false_or]
      rw [List.mem_filterMap, List.mem_filterMap]
      constructor
      · rintro ⟨e, he, hx⟩
        rcases List.mem_append.mp (hperm.mem_iff.mp he) with h | h
        · exact ⟨e, h, hx⟩
        · exact ⟨e, h, hx⟩
      · rintro ⟨e, he, hx⟩
        exact ⟨e, hperm.mem_iff.mpr (List.mem_append.mpr (Or.inl he)), hx⟩
    rw [sortEdges_eq_of_same_mem _ _
      (nodup_foldl_setAdd _ _ List.nodup_nil) (nodup_foldl_setAdd _ _ List.nodup_nil) hmem]
  refine ⟨hmain, by rw [hmain], ?_⟩
  unfold store_baseline
  cases hn : normalize_edges E with
  | error e => simp [hn, Except.map]
  | ok N => simp [hn, Except.map]

theorem baseline_hash_pure_function_of_edge_set_witness :
    normalize_edges
        [JsonVal.obj [("from", .str "core"), ("to", .str "ui")],
         JsonVal.obj [("from", .str "ui"), ("to", .str "api")],
         JsonVal.obj [("from", .str "ui"), ("to", .str "api")],
         JsonVal.obj [("from", .str "core"), ("to", .str "ui")]] =
      normalize_edges
        [JsonVal.obj [("from", .str "ui"), ("to", .str "api")],
         JsonVal.obj [("from", .str "core"), ("to", .str "ui")]] := by
  refine (baseline_hash_pure_function_of_edge_set
    [JsonVal.obj [("from", .str "ui"), ("to", .str "api")],
     JsonVal.obj [("from", .str "core"), ("to", .str "ui")]]
    [JsonVal.obj [("from", .str "core"), ("to", .str "ui")],
     JsonVal.obj [("from", .str "ui"), ("to", .str "api")],
     JsonVal.obj [("from", .str "ui"), ("to", .str "api")],
     JsonVal.obj [("from", .str "core"), ("to", .str "ui")]]
    "d" "d" "t" "t" none none ?_ (by decide)).1
  exact List.Perm.swap _ _ _

/-! ## C4: store / load round trip and tamper detection -/

theorem edgeOfJson_edgeJson (p : String × String) (h1 : ¬ p.1 = "") (h2 : ¬ p.2 = "") :
    edgeOfJson (edgeJson p) = some p := by
  obtain ⟨f, t⟩ := p
  simp only at h1 h2
  have hf : lookupField [("from", JsonVal.str f), ("to", JsonVal.str t)] "from" =
      some (.str f) := rfl
  have ht : lookupField [("from", JsonVal.str f), ("to", JsonVal.str t)] "to" =
      some (.str t) := by
    simp [lookupField]
  simp only [edgeJson, edgeOfJson, hf, ht]
  rw [if_neg (by tauto)]

theorem filterMap_edgeOfJson_map_edgeJson (N : List (String × String))
    (hne : ∀ p ∈ N, ¬ p.1 = "" ∧ ¬ p.2 = "") :
    (N.map edgeJson).filterMap edgeOfJson = N := by
  induction N with
  | nil => rfl
  | cons p rest ih =>
    rw [List.map_cons, List.filterMap_cons]
    have hp := hne p (List.mem_cons_self _ _)
    simp only [edgeOfJson_edgeJson p hp.1 hp.2]
    rw [ih (fun q hq => hne q (List.mem_cons_of_mem _ hq))]

theorem foldl_setAdd_eq_append [DecidableEq α] (N : List α) :
    ∀ acc : List α, (acc ++ N).Nodup → N.foldl setAdd acc = acc ++ N := by
  induction N with
  | nil => intro acc _; simp
  | cons x rest ih =>
    intro acc hnd
    have hx : x ∉ acc := by
      intro hmem
      rw [List.nodup_append] at hnd
      exact hnd.2.2 hmem (List.mem_cons_self _ _)
    rw [List.foldl_cons]
    have hsa : setAdd acc x = acc ++ [x] := by simp [setAdd, hx]
    rw [hsa, ih (acc ++ [x]) (by simpa using hnd)]
    simp

theorem normalize_edges_map_edgeJson (N : List (String × String))
    (hnd : N.Nodup) (hs : sortEdges N = N)
    (hne : ∀ p ∈ N, ¬ p.1 = "" ∧ ¬ p.2 = "") :
    normalize_edges (N.map edgeJson) = .ok N := by
  have hall : ∀ e ∈ N.map edgeJson, (edgeOfJson e).isSome := by
    intro e he
    rcases List.mem_map.mp he with ⟨p, hp, rfl⟩
    rw [edgeOfJson_edgeJson p (hne p hp).1 (hne p hp).2]
    rfl
  rw [normalize_edges_ok _ hall, filterMap_edgeOfJson_map_edgeJson N hne,
    foldl_setAdd_eq_append N [] (by simpa using hnd)]
  rw [List.nil_append, hs]

theorem store_baseline_ok_inv (dir now : String) (E : List JsonVal) (gs : Option GraphStats)
    (st : BaselineDirState) (res : StoreResult)
    (h : store_baseline dir E gs now = .ok (st, res)) :
    ∃ N, normalize_edges E = .ok N ∧
      st.edges_file = .json (.obj [("version", .str "1.0"), ("edges", .arr (N.map edgeJson))]) ∧
      (∃ sfields, st.summary_file = .json (.obj sfields) ∧
        lookupField sfields "version" = some (.str "1.0") ∧
        lookupField sfields "created_at_utc" = some (.str now) ∧
        lookupField sfields "baseline_hash_sha256" =
          some (.str (compute_baseline_hash_sha256 N)) ∧
        lookupField sfields "edge_count" = some (.int N.length)) ∧
      res.baseline_hash_sha256 = compute_baseline_hash_sha256 N ∧
      res.edge_count = N.length := by
  unfold store_baseline at h
  cases hn : normalize_edges E with
  | error e =>
    rw [hn] at h
    exact Except.noConfusion h
  | ok N =>
    rw [hn] at h
    simp only [Except.bind, bind, pure, Except.pure] at h
    refine ⟨N, rfl, ?_⟩
    cases h
    cases gs with
    | none =>
      refine ⟨rfl, ⟨_, rfl, ?_, ?_, ?_, ?_⟩, rfl, rfl⟩ <;> simp [lookupField]
    | some g =>
      refine ⟨rfl, ⟨_, rfl, ?_, ?_, ?_, ?_⟩, rfl, rfl⟩ <;> simp [lookupField]

theorem compute_baseline_hash_length (N : List (String × String)) :
    (compute_baseline_hash_sha256 N).length = 64 :=
  sha256Hex_length _

theorem load_baseline_round (now : String) (N : List (String × String))
    (sfields : List (String × JsonVal))
    (hnd : N.Nodup) (hs : sortEdges N = N) (hne : ∀ p ∈ N, ¬ p.1 = "" ∧ ¬ p.2 = "")
    (hv : lookupField sfields "version" = some (.str "1.0"))
    (hc : lookupField sfields "created_at_utc" = some (.str now))
    (hh : lookupField sfields "baseline_hash_sha256" =
      some (.str (compute_baseline_hash_sha256 N)))
    (hcount : lookupField sfields "edge_count" = some (.int N.length)) :
    load_baseline
      { edges_file := .json (.obj [("version", .str "1.0"),
          ("edges", .arr (N.map edgeJson))]),
        summary_file := .json (.obj sfields) } = .ok (N, .obj sfields) := by
  have hev : lookupField [("version", JsonVal.str "1.0"),
      ("edges", JsonVal.arr (N.map edgeJson))] "version" = some (.str "1.0") := rfl
  have hee : lookupField [("version", JsonVal.str "1.0"),
      ("edges", JsonVal.arr (N.map edgeJson))] "edges" =
      some (.arr (N.map edgeJson)) := rfl
  unfold load_baseline
  simp [hev, hee, hv, hc, hh, hcount, isVersionOne, compute_baseline_hash_length,
    normalize_edges_map_edgeJson N hnd hs hne, pure_bind, Except.bind, pure, Except.pure]

theorem load_baseline_tamper (E' : List JsonVal) (N' : List (String × String))
    (sfields : List (String × JsonVal)) (storedHash : String) (storedCount : Int)
    (created : String)
    (hv : lookupField sfields "version" = some (.str "1.0"))
    (hc : lookupField sfields "created_at_utc" = some (.str created))
    (hh : lookupField sfields "baseline_hash_sha256" = some (.str storedHash))
    (hlen : storedHash.length = 64)
    (hcount : lookupField sfields "edge_count" = some (.int storedCount))
    (hnorm : normalize_edges E' = .ok N')
    (hhash : ¬ compute_baseline_hash_sha256 N' = storedHash) :
    load_baseline
      { edges_file := .json (.obj [("version", .str "1.0"), ("edges", .arr E')]),
        summary_file := .json (.obj sfields) } =
      .error ("Baseline hash mismatch: expected " ++ storedHash ++ ", got " ++
        compute_baseline_hash_sha256 N') := by
  have hev : lookupField [("version", JsonVal.str "1.0"),
      ("edges", JsonVal.arr E')] "version" = some (.str "1.0") := rfl
  have hee : lookupField [("version", JsonVal.str "1.0"),
      ("edges", JsonVal.arr E')] "edges" = some (.arr E') := rfl
  unfold load_baseline
  simp [hev, hee, hv, hc, hh, hcount, isVersionOne, hlen, hnorm, hhash,
    pure_bind, Except.bind, pure, Except.pure]

/-- C4: after `store_baseline` succeeds, `load_baseline` on the written
directory succeeds and returns exactly the normalized edges; and if
`baseline_edges.json` is replaced by a well-formed edges file whose
normalized edge set hashes differently (e.g. a fresh edge appended —
SHA-256 collision resistance is assumed in the form of the hash
inequality hypothesis), `load_baseline` fails with a message starting
with `Baseline hash mismatch`. -/
theorem store_load_round_trip_and_tamper (dir now : String) (E : List JsonVal)
    (gs : Option GraphStats) (st : BaselineDirState) (res : StoreResult)
    (hstore : store_baseline dir E gs now = .ok (st, res)) :
    (∃ N summary, normalize_edges E = .ok N ∧ load_baseline st = .ok (N, summary)) ∧
    (∀ (E' : List JsonVal) (N' : List (String × String)),
      normalize_edges E' = .ok N' →
      ¬ compute_baseline_hash_sha256 N' = res.baseline_hash_sha256 →
      load_baseline { st with edges_file := .json (.obj [("version", .str "1.0"),
          ("edges", .arr E')]) } =
        .error ("Baseline hash mismatch: expected " ++ res.baseline_hash_sha256 ++
          ", got " ++ compute_baseline_hash_sha256 N')) := by
  obtain ⟨N, hn, hedges, ⟨sfields, hsum, hv, hc, hh, hcount⟩, hrh, hrc⟩ :=
    store_baseline_ok_inv dir now E gs st res hstore
  obtain ⟨hnd, hsorted, hidem, hne⟩ := normalize_edges_ok_props E N hn
  obtain ⟨ef, sf⟩ := st
  simp only at hedges hsum
  subst hedges hsum
  constructor
  · exact ⟨N, .obj sfields, hn, load_baseline_round now N sfields hnd hidem hne hv hc hh hcount⟩
  · intro E' N' hnorm hhash
    rw [hrh] at hhash ⊢
    exact load_baseline_tamper E' N' sfields (compute_baseline_hash_sha256 N) N.length now
      hv hc hh (compute_baseline_hash_length N) hcount hnorm hhash

set_option maxRecDepth 100000 in
theorem store_load_round_trip_and_tamper_witness :
    (∃ N summary,
      normalize_edges [edgeJson ("a", "b")] = .ok N ∧
      load_baseline
        { edges_file := .json (.obj [("version", .str "1.0"),
            ("edges", .arr [edgeJson ("a", "b")])]),
          summary_file := .json (.obj [("version", .str "1.0"),
            ("created_at_utc", .str "2024-01-01T00:00:00+00:00"),
            ("baseline_hash_sha256", .str (compute_baseline_hash_sha256 [("a", "b")])),
            ("edge_count", .int 1)]) } = .ok (N, summary)) ∧
    load_baseline
        { edges_file := .json (.obj [("version", .str "1.0"),
            ("edges", .arr [edgeJson ("a", "b"), edgeJson ("x", "y")])]),
          summary_file := .json (.obj [("version", .str "1.0"),
            ("created_at_utc", .str "2024-01-01T00:00:00+00:00"),
            ("baseline_hash_sha256", .str (compute_baseline_hash_sha256 [("a", "b")])),
            ("edge_count", .int 1)]) } =
      .error ("Baseline hash mismatch: expected " ++
        compute_baseline_hash_sha256 [("a", "b")] ++ ", got " ++
        compute_baseline_hash_sha256 [("a", "b"), ("x", "y")]) := by
  have h := store_load_round_trip_and_tamper "d" "2024-01-01T00:00:00+00:00"
    [edgeJson ("a", "b")] none
    { edges_file := .json (.obj [("version", .str "1.0"),
        ("edges", .arr [edgeJson ("a", "b")])]),
      summary_file := .json (.obj [("version", .str "1.0"),
        ("created_at_utc", .str "2024-01-01T00:00:00+00:00"),
        ("baseline_hash_sha256", .str (compute_baseline_hash_sha256 [("a", "b")])),
        ("edge_count", .int 1)]) }
    { baseline_dir := "d",
      baseline_hash_sha256 := compute_baseline_hash_sha256 [("a", "b")],
      edge_count := 1 }
    rfl
  exact ⟨h.1, h.2 [edgeJson ("a", "b"), edgeJson ("x", "y")] [("a", "b"), ("x", "y")]
    rfl (by decide)⟩

/-! ## C10: malformed persisted exception data yields no exceptions -/

/-- C10: if `baseline_exceptions.json` is absent, contains invalid JSON,
or has a non-list root, `read_baseline_exceptions` and
`get_active_exceptions` return the empty list and never raise (a total
function and an `.ok` result in the embedding). -/
theorem malformed_exceptions_yield_empty (now : String) :
    (read_baseline_exceptions .absent = [] ∧
      get_active_exceptions .absent now = .ok []) ∧
    (read_baseline_exceptions .invalidJson = [] ∧
      get_active_exceptions .invalidJson now = .ok []) ∧
    (∀ v : JsonVal, (∀ l, ¬ v = .arr l) →
      read_baseline_exceptions (.json v) = [] ∧
      get_active_exceptions (.json v) now = .ok []) := by
  refine ⟨⟨rfl, rfl⟩, ⟨rfl, rfl⟩, ?_⟩
  intro v hv
  cases v with
  | arr l => exact absurd rfl (hv l)
  | null => exact ⟨rfl, rfl⟩
  | bool b => exact ⟨rfl, rfl⟩
  | int n => exact ⟨rfl, rfl⟩
  | float q => exact ⟨rfl, rfl⟩
  | str s => exact ⟨rfl, rfl⟩
  | obj o => exact ⟨rfl, rfl⟩

theorem malformed_exceptions_yield_empty_witness :
    read_baseline_exceptions (.json (.obj [("from_module", .str "a")])) = [] ∧
    get_active_exceptions (.json (.obj [("from_module", .str "a")]))
      "2024-01-01T00:00:00+00:00" = .ok [] :=
  ((malformed_exceptions_yield_empty "2024-01-01T00:00:00+00:00").2.2
    (.obj [("from_module", .str "a")]) (fun l h => JsonVal.noConfusion h))

/-! ## C2: the classifier is risk-first after the no-change guard -/

/-- C2 (amended): whenever all three inputs are present with no rules
error, and `FA > 0 ∨ CA > 0`, **and the no-change guard does not fire**
(the guard `EA = ER = CA = CR = 0` is checked first and wins), the
classification is `negative` and the reason codes are exactly the
sorted present subset of `{"forbidden_edges_added", "cycles_added"}` —
in particular no positive reason code is emitted.  (Without the
no-change proviso the claim fails: see the counterexample, where
`FA = 1` but all four guard counts are zero.) -/
theorem classify_drift_risk_first (a : AnalysisIn) (c : CompareIn) (r : RulesIn)
    (cy : CyclesIn)
    (hc : a.compare = some c) (hr : a.rules = some r) (hcy : a.cycles = some cy)
    (herr : r.error = none)
    (hrisk : 0 < extractFA r ∨ 0 < extractCA cy)
    (hnz : ¬ (extractEA c = 0 ∧ extractER c = 0 ∧ extractCA cy = 0 ∧ extractCR cy = 0)) :
    (classify_drift a).classification = "negative" ∧
    (classify_drift a).reason_codes =
      (if 0 < extractCA cy then ["cycles_added"] else []) ++
      (if 0 < extractFA r then ["forbidden_edges_added"] else []) := by
  obtain ⟨ac, ar, acy⟩ := a
  simp only at hc hr hcy
  subst hc hr hcy
  simp only [classify_drift, herr, Option.isSome_none, Bool.false_eq_true, if_false,
    List.append_nil, List.nil_append, ne_eq, not_true_eq_false, not_false_eq_true,
    Option.isNone_none]
  rw [if_neg (by simp)]
  rw [if_neg hnz]
  rw [if_pos (by tauto)]
  by_cases hfa : 0 < extractFA r
  · by_cases hca : 0 < extractCA cy
    · refine ⟨rfl, ?_⟩
      simp only [hfa, hca, if_true, iff_true]
      decide
    · refine ⟨rfl, ?_⟩
      simp only [hfa, hca, if_true, if_false, iff_true, iff_false]
      decide
  · have hca : 0 < extractCA cy := hrisk.resolve_left hfa
    refine ⟨rfl, ?_⟩
    simp only [hfa, hca, if_true, if_false, iff_true, iff_false]
    decide

theorem classify_drift_risk_first_witness :
    (classify_drift
      ⟨some ⟨some ⟨some 1, some 0⟩, [], []⟩,
       some ⟨none, some ⟨some 1, some 0⟩, [], []⟩,
       some ⟨some ⟨some 0, some 0⟩, [], []⟩⟩).classification = "negative" :=
  (classify_drift_risk_first _ _ _ _ rfl rfl rfl rfl (by decide) (by decide)).1

/-- C2 counterexample: an input with `FA = 1` but
`EA = ER = CA = CR = 0` is classified `no_change`, not `negative`: the
no-change guard runs before the risk-first rule. -/
theorem classify_drift_no_change_beats_risk_counterexample :
    (classify_drift
      ⟨some ⟨some ⟨some 0, some 0⟩, [], []⟩,
       some ⟨none, some ⟨some 1, some 0⟩, [], []⟩,
       some ⟨some ⟨some 0, some 0⟩, [], []⟩⟩).classification = "no_change" ∧
    ¬ (classify_drift
      ⟨some ⟨some ⟨some 0, some 0⟩, [], []⟩,
       some ⟨none, some ⟨some 1, some 0⟩, [], []⟩,
       some ⟨some ⟨some 0, some 0⟩, [], []⟩⟩).classification = "negative" := by
  constructor
  · rfl
  · decide

/-! ## C9: determinism of `check_rules` -/

theorem besmStep_time_congr (t t' : String) (exc : ExceptionRec)
    (h : ∀ x, exc.expires_at = some x → strLeB x t = strLeB x t')
    (acc : List (String × String) × List ((String × String) × ExceptionRec)) :
    besmStep t acc exc = besmStep t' acc exc := by
  unfold besmStep
  cases hf : exc.from_module with
  | none => rfl
  | some f =>
    cases ht : exc.to_module with
    | none => rfl
    | some t2 =>
      simp only
      by_cases he : f = "" ∨ t2 = ""
      · rw [if_pos he, if_pos he]
      · rw [if_neg he, if_neg he]
        cases hx : exc.expires_at with
        | none => rfl
        | some x =>
          simp only
          rw [h x hx]

theorem build_exception_set_and_map_time_congr (excs : List ExceptionRec) (t t' : String)
    (h : ∀ exc ∈ excs, ∀ x, exc.expires_at = some x → strLeB x t = strLeB x t') :
    build_exception_set_and_map excs t = build_exception_set_and_map excs t' := by
  unfold build_exception_set_and_map
  suffices hgen : ∀ acc, excs.foldl (besmStep t) acc = excs.foldl (besmStep t') acc from
    hgen ([], [])
  induction excs with
  | nil => intro acc; rfl
  | cons exc rest ih =>
    intro acc
    rw [List.foldl_cons, List.foldl_cons,
      besmStep_time_congr t t' exc (h exc (List.mem_cons_self _ _)) acc]
    exact ih (fun e he x hx => h e (List.mem_cons_of_mem _ he) x hx) _

/-- C9 (amended): `check_rules` is a deterministic function of its three
arguments **and the wall-clock time read inside
`build_exception_set_and_map`**: two calls whose active exceptions have
the same expiry status at both times return identical results.  (As a
pure function of the three arguments alone the claim fails: an
exception expiring between the two calls changes the result — see the
counterexample.) -/
theorem check_rules_deterministic_given_expiry_status (ce : CompareEdges)
    (cfg : ArchConfig) (excs : List ExceptionRec) (t t' : String)
    (h : ∀ exc ∈ excs, ∀ x, exc.expires_at = some x → strLeB x t = strLeB x t') :
    check_rules ce cfg excs t = check_rules ce cfg excs t' := by
  unfold check_rules
  rw [build_exception_set_and_map_time_congr excs t t' h]

theorem check_rules_deterministic_given_expiry_status_witness :
    check_rules ⟨[.obj [("from", .str "a"), ("to", .str "b")]], []⟩ ⟨true, []⟩
        [⟨some "a", some "b", some "2030-01-01T00:00:00+00:00"⟩]
        "2024-01-01T00:00:00+00:00" =
      check_rules ⟨[.obj [("from", .str "a"), ("to", .str "b")]], []⟩ ⟨true, []⟩
        [⟨some "a", some "b", some "2030-01-01T00:00:00+00:00"⟩]
        "2025-06-01T00:00:00+00:00" :=
  check_rules_deterministic_given_expiry_status
    ⟨[.obj [("from", .str "a"), ("to", .str "b")]], []⟩ ⟨true, []⟩
    [⟨some "a", some "b", some "2030-01-01T00:00:00+00:00"⟩]
    "2024-01-01T00:00:00+00:00" "2025-06-01T00:00:00+00:00" (by decide)

/-- C9 counterexample: with identical `compare_result`, `config` and
`active_exceptions`, two calls at different wall-clock times differ —
the exception expiring `2025-01-01` suppresses the forbidden edge in a
call made in 2024 but not in a call made in 2026. -/
theorem check_rules_time_dependent_counterexample :
    ¬ check_rules ⟨[.obj [("from", .str "a"), ("to", .str "b")]], []⟩ ⟨true, []⟩
        [⟨some "a", some "b", some "2025-01-01T00:00:00+00:00"⟩]
        "2024-01-01T00:00:00+00:00" =
      check_rules ⟨[.obj [("from", .str "a"), ("to", .str "b")]], []⟩ ⟨true, []⟩
        [⟨some "a", some "b", some "2025-01-01T00:00:00+00:00"⟩]
        "2026-01-01T00:00:00+00:00" := by
  decide

/-! ## C5: the rule-checker's forbidden / exception sets -/

theorem setDiff_setInter [DecidableEq α] (a b : List α) :
    setDiff a (setInter a b) = setDiff a b := by
  unfold setDiff setInter
  apply List.filter_congr
  intro x hx
  by_cases hb : x ∈ b
  · simp [List.mem_filter, hx, hb]
  · simp [List.mem_filter, hb]

theorem build_allowed_set_empty_iff (cfg : ArchConfig) :
    build_allowed_set_from_rules cfg = [] ↔ cfg.allowed_edges = [] := by
  unfold build_allowed_set_from_rules
  exact foldl_setAdd_nil_eq_nil cfg.allowed_edges

theorem sortEdges_eq_nil_iff (l : List (String × String)) : sortEdges l = [] ↔ l = [] := by
  constructor
  · intro h
    have := (sortEdges_perm l).length_eq
    rw [h] at this
    exact List.eq_nil_of_length_eq_zero this.symm
  · rintro rfl; rfl

/-- C5: for valid compare input, permissive mode (`deny_by_default`
false and no allowed edges) yields empty `forbidden_edges_added` and
`allowed_via_exception`; otherwise `forbidden_edges_added` is
`(added − allowed) − exceptions` and `allowed_via_exception` is
`(added − allowed) ∩ exceptions`; `forbidden_edges_removed` is always
empty; and `ok` holds iff `forbidden_edges_added` is empty. -/
theorem check_rules_forbidden_sets (ce : CompareEdges) (cfg : ArchConfig)
    (excs : List ExceptionRec) (now : String)
    (added removed : List (String × String))
    (hadded : normalize_edge_input ce.edges_added = .ok added)
    (hremoved : normalize_edge_input ce.edges_removed = .ok removed) :
    (cfg.deny_by_default = false ∧ cfg.allowed_edges = [] →
      (check_rules ce cfg excs now).forbidden_edges_added = [] ∧
      (check_rules ce cfg excs now).allowed_via_exception = []) ∧
    (¬ (cfg.deny_by_default = false ∧ cfg.allowed_edges = []) →
      (check_rules ce cfg excs now).forbidden_edges_added =
        sortEdges (setDiff (setDiff added (build_allowed_set_from_rules cfg))
          (build_exception_set_and_map excs now).1) ∧
      (check_rules ce cfg excs now).allowed_via_exception =
        sortEdges (setInter (setDiff added (build_allowed_set_from_rules cfg))
          (build_exception_set_and_map excs now).1)) ∧
    (check_rules ce cfg excs now).forbidden_edges_removed = [] ∧
    ((check_rules ce cfg excs now).ok = true ↔
      (check_rules ce cfg excs now).forbidden_edges_added = []) := by
  simp only [check_rules, hadded, hremoved]
  by_cases hcond : (!cfg.deny_by_default) = true ∧
      (build_allowed_set_from_rules cfg).length = 0
  · rw [if_pos hcond]
    refine ⟨fun _ => ⟨rfl, rfl⟩, fun hn => absurd ?_ hn, rfl,
      by simp [setDiff, sortEdges, List.insertionSort]⟩
    constructor
    · simpa using hcond.1
    · exact (build_allowed_set_empty_iff cfg).mp (List.eq_nil_of_length_eq_zero hcond.2)
  · rw [if_neg hcond]
    have hclaim : ¬ (cfg.deny_by_default = false ∧ cfg.allowed_edges = []) := by
      intro hcl
      exact hcond ⟨by simp [hcl.1], by rw [(build_allowed_set_empty_iff cfg).mpr hcl.2]; rfl⟩
    refine ⟨fun hcl => absurd hcl hclaim, fun _ => ⟨?_, rfl⟩, rfl, ?_⟩
    · rw [setDiff_setInter]
    · simp only [List.length_eq_zero, decide_eq_true_eq, sortEdges_eq_nil_iff]
      constructor
      · intro h
        exact h.1
      · intro h
        exact ⟨h, trivial⟩

theorem check_rules_forbidden_sets_witness :
    (check_rules ⟨[.obj [("from", .str "a"), ("to", .str "b")],
        .obj [("from", .str "c"), ("to", .str "d")]], []⟩
      ⟨true, [("c", "d")]⟩ [] "2024-01-01T00:00:00+00:00").forbidden_edges_added =
      sortEdges (setDiff (setDiff [("a", "b"), ("c", "d")]
        (build_allowed_set_from_rules ⟨true, [("c", "d")]⟩))
        (build_exception_set_and_map [] "2024-01-01T00:00:00+00:00").1) ∧
    (check_rules ⟨[.obj [("from", .str "a"), ("to", .str "b")],
        .obj [("from", .str "c"), ("to", .str "d")]], []⟩
      ⟨true, [("c", "d")]⟩ [] "2024-01-01T00:00:00+00:00").forbidden_edges_removed = [] := by
  have h := check_rules_forbidden_sets
    ⟨[.obj [("from", .str "a"), ("to", .str "b")],
      .obj [("from", .str "c"), ("to", .str "d")]], []⟩
    ⟨true, [("c", "d")]⟩ [] "2024-01-01T00:00:00+00:00"
    [("a", "b"), ("c", "d")] [] rfl rfl
  exact ⟨(h.2.1 (by decide)).1, h.2.2.1⟩

/-! ## C8: cycle detection is bounded -/

theorem setAdd_length [DecidableEq α] (s : List α) (x : α) :
    (setAdd s x).length = s.length ∨ (setAdd s x).length = s.length + 1 := by
  unfold setAdd
  by_cases h : x ∈ s
  · left; rw [if_pos h]
  · right; rw [if_neg h]; simp

theorem dfs_cycles_bound (adj : String → List String) (maxC : Int) :
    ∀ (fuel : Nat) (node : String) (path : List String) (st : DfsState),
      (st.truncated = true → (st.cycles_set.length : Int) = maxC) →
      (st.truncated = false → (st.cycles_set.length : Int) < maxC) →
      ((dfs_cycles adj maxC fuel node path st).truncated = true →
        ((dfs_cycles adj maxC fuel node path st).cycles_set.length : Int) = maxC) ∧
      ((dfs_cycles adj maxC fuel node path st).truncated = false →
        ((dfs_cycles adj maxC fuel node path st).cycles_set.length : Int) < maxC) := by
  intro fuel
  induction fuel with
  | zero => intro node path st h1 h2; exact ⟨h1, h2⟩
  | succ n ih =>
    intro node path st h1 h2
    rw [dfs_cycles]
    by_cases htr : st.truncated = true
    · rw [if_pos htr]; exact ⟨h1, h2⟩
    · rw [if_neg htr]
      have hlt := h2 (Bool.eq_false_iff.mpr htr)
      by_cases hpath : node ∈ path
      · rw [if_pos hpath]
        constructor
        · intro htr2
          have hle : maxC ≤
              ((setAdd st.cycles_set
                (canonicalise_cycle (path.drop (path.indexOf node)))).length : Int) :=
            of_decide_eq_true htr2
          have hub : ((setAdd st.cycles_set
              (canonicalise_cycle (path.drop (path.indexOf node)))).length : Int) ≤ maxC := by
            rcases setAdd_length st.cycles_set
              (canonicalise_cycle (path.drop (path.indexOf node))) with h | h
            · rw [h]; omega
            · rw [h]; push_cast; omega
          exact le_antisymm hub hle
        · intro htr2
          have hnle : ¬ maxC ≤
              ((setAdd st.cycles_set
                (canonicalise_cycle (path.drop (path.indexOf node)))).length : Int) :=
            of_decide_eq_false htr2
          show ((setAdd st.cycles_set
            (canonicalise_cycle (path.drop (path.indexOf node)))).length : Int) < maxC
          omega
      · rw [if_neg hpath]
        by_cases hvis : node ∈ st.visited_complete
        · rw [if_pos hvis]; exact ⟨h1, h2⟩
        · rw [if_neg hvis]
          simp only
          have hfold : ∀ (l : List String) (s : DfsState),
              (s.truncated = true → (s.cycles_set.length : Int) = maxC) →
              (s.truncated = false → (s.cycles_set.length : Int) < maxC) →
              ((l.foldl (fun s nb => dfs_cycles adj maxC n nb (path ++ [node]) s) s).truncated
                  = true →
                (((l.foldl (fun s nb => dfs_cycles adj maxC n nb (path ++ [node]) s)
                  s).cycles_set.length : Int)) = maxC) ∧
              ((l.foldl (fun s nb => dfs_cycles adj maxC n nb (path ++ [node]) s) s).truncated
                  = false →
                (((l.foldl (fun s nb => dfs_cycles adj maxC n nb (path ++ [node]) s)
                  s).cycles_set.length : Int)) < maxC) := by
            intro l
            induction l with
            | nil => intro s hs1 hs2; exact ⟨hs1, hs2⟩
            | cons nb rest ihl =>
              intro s hs1 hs2
              rw [List.foldl_cons]
              obtain ⟨hh1, hh2⟩ := ih nb (path ++ [node]) s hs1 hs2
              exact ihl _ hh1 hh2
          obtain ⟨hh1, hh2⟩ :=
            hfold (adj node) st h1 h2
          by_cases htr2 : (((adj node).foldl
              (fun s nb => dfs_cycles adj maxC n nb (path ++ [node]) s) st)).truncated = true
          · rw [if_pos htr2]; exact ⟨hh1, hh2⟩
          · rw [if_neg htr2]
            simp only
            exact ⟨fun h => absurd h htr2, fun _ => hh2 (Bool.eq_false_iff.mpr htr2)⟩

/-- C8 (amended): `cycles_count` always equals the number of returned
cycles; and for every `max_cycles ≥ 1` the result is bounded:
`|cycles| ≤ max_cycles`, and `truncated` implies `|cycles| =
max_cycles`.  (For `max_cycles ≤ 0` the bound fails: the first cycle is
recorded before the cut-off check — see the counterexample with
`max_cycles = 0`.) -/
theorem detect_cycles_bounded (edges : List JsonVal) (maxC : Int) :
    (detect_cycles edges maxC).cycles_count = (detect_cycles edges maxC).cycles.length ∧
    (1 ≤ maxC →
      ((detect_cycles edges maxC).cycles.length : Int) ≤ maxC ∧
      ((detect_cycles edges maxC).truncated = true →
        ((detect_cycles edges maxC).cycles.length : Int) = maxC)) := by
  cases hn : normalize_edge_input edges with
  | error e =>
    simp only [detect_cycles, hn]
    refine ⟨rfl, fun hm => ⟨?_, fun h => Bool.noConfusion h⟩⟩
    simp only [List.length_nil, Nat.cast_zero]
    omega
  | ok edge_set =>
    simp only [detect_cycles, hn]
    by_cases hemp : edge_set.isEmpty
    · rw [if_pos hemp]
      refine ⟨rfl, fun hm => ⟨?_, fun h => Bool.noConfusion h⟩⟩
      simp only [List.length_nil, Nat.cast_zero]
      omega
    · rw [if_neg hemp]
      refine ⟨rfl, fun hm => ?_⟩
      set nodes := sortStrings (allNodesOf edge_set) with hnodes
      have hfold : ∀ (l : List String) (s : DfsState),
          (s.truncated = true → (s.cycles_set.length : Int) = maxC) →
          (s.truncated = false → (s.cycles_set.length : Int) < maxC) →
          ((l.foldl (fun st start_node =>
              if start_node ∉ st.visited_complete ∧ st.truncated = false then
                dfs_cycles (adjacencyOf edge_set) maxC (nodes.length + 1) start_node [] st
              else st) s).truncated = true →
            (((l.foldl (fun st start_node =>
              if start_node ∉ st.visited_complete ∧ st.truncated = false then
                dfs_cycles (adjacencyOf edge_set) maxC (nodes.length + 1) start_node [] st
              else st) s).cycles_set.length : Int)) = maxC) ∧
          ((l.foldl (fun st start_node =>
              if start_node ∉ st.visited_complete ∧ st.truncated = false then
                dfs_cycles (adjacencyOf edge_set) maxC (nodes.length + 1) start_node [] st
              else st) s).truncated = false →
            (((l.foldl (fun st start_node =>
              if start_node ∉ st.visited_complete ∧ st.truncated = false then
                dfs_cycles (adjacencyOf edge_set) maxC (nodes.length + 1) start_node [] st
              else st) s).cycles_set.length : Int)) < maxC) := by
        intro l
        induction l with
        | nil => intro s hs1 hs2; exact ⟨hs1, hs2⟩
        | cons x rest ihl =>
          intro s hs1 hs2
          rw [List.foldl_cons]
          by_cases hc : x ∉ s.visited_complete ∧ s.truncated = false
          · rw [if_pos hc]
            obtain ⟨hh1, hh2⟩ :=
              dfs_cycles_bound (adjacencyOf edge_set) maxC (nodes.length + 1) x [] s hs1 hs2
            exact ihl _ hh1 hh2
          · rw [if_neg hc]
            exact ihl s hs1 hs2
      obtain ⟨hh1, hh2⟩ := hfold nodes ⟨[], [], false⟩
        (fun h => Bool.noConfusion h) (fun _ => by simpa using hm)
      set final := nodes.foldl (fun st start_node =>
        if start_node ∉ st.visited_complete ∧ st.truncated = false then
          dfs_cycles (adjacencyOf edge_set) maxC (nodes.length + 1) start_node [] st
        else st) ⟨[], [], false⟩ with hfinal
      have hlen : (sortCycles final.cycles_set).length = final.cycles_set.length :=
        (sortCycles_perm _).length_eq
      constructor
      · rw [hlen]
        cases htr : final.truncated with
        | true => rw [hh1 htr]
        | false => exact le_of_lt (hh2 htr)
      · intro htr
        rw [hlen]
        exact hh1 htr

/-- C8 counterexample: with `max_cycles = 0` and a single self-loop the
detector still records one cycle before checking the cut-off, so it
returns `truncated = true` with one cycle — more than `max_cycles`, and
not equal to it. -/
theorem detect_cycles_max_zero_counterexample :
    (detect_cycles [.obj [("from", .str "a"), ("to", .str "a")]] 0).truncated = true ∧
    (detect_cycles [.obj [("from", .str "a"), ("to", .str "a")]] 0).cycles_count = 1 := by
  constructor
  · decide
  · decide

theorem detect_cycles_bounded_witness :
    (detect_cycles [.obj [("from", .str "a"), ("to", .str "b")],
        .obj [("from", .str "b"), ("to", .str "a")]] 5).cycles_count =
      (detect_cycles [.obj [("from", .str "a"), ("to", .str "b")],
        .obj [("from", .str "b"), ("to", .str "a")]] 5).cycles.length ∧
    ((detect_cycles [.obj [("from", .str "a"), ("to", .str "b")],
        .obj [("from", .str "b"), ("to", .str "a")]] 5).cycles.length : Int) ≤ 5 := by
  have h := detect_cycles_bounded
    [.obj [("from", .str "a"), ("to", .str "b")],
     .obj [("from", .str "b"), ("to", .str "a")]] 5
  exact ⟨h.1, (h.2 (by decide)).1⟩

/-! ## C7: cycle canonicalization -/

theorem minLoop_source (xs : List String) :
    ∀ (acc : String × Nat) (i : Nat),
      minLoop xs acc i = acc ∨
      ∃ j, ∃ hj : j < xs.length, minLoop xs acc i = (xs.get ⟨j, hj⟩, i + j) := by
  induction xs with
  | nil => intro acc i; exact Or.inl rfl
  | cons x rest ih =>
    intro acc i
    rw [minLoop]
    by_cases hx : strLtB x acc.1 = true
    · rw [if_pos hx]
      rcases ih (x, i) (i + 1) with h | ⟨j, hj, h⟩
      · right
        exact ⟨0, by simp, by simpa using h⟩
      · right
        refine ⟨j + 1, by simpa using Nat.succ_lt_succ hj, ?_⟩
        rw [h]
        simp only [List.get_cons_succ]
        congr 1
        omega
    · rw [if_neg hx]
      rcases ih acc (i + 1) with h | ⟨j, hj, h⟩
      · exact Or.inl h
      · right
        refine ⟨j + 1, by simpa using Nat.succ_lt_succ hj, ?_⟩
        rw [h]
        simp only [List.get_cons_succ]
        congr 1
        omega

theorem minLoop_min (xs : List String) :
    ∀ (acc : String × Nat) (i : Nat),
      strLtB acc.1 (minLoop xs acc i).1 = false ∧
      ∀ x ∈ xs, strLtB x (minLoop xs acc i).1 = false := by
  have hs := strLtB_ord
  induction xs with
  | nil =>
    intro acc i
    exact ⟨hs.irrefl acc.1, by simp⟩
  | cons x rest ih =>
    intro acc i
    rw [minLoop]
    by_cases hx : strLtB x acc.1 = true
    · rw [if_pos hx]
      obtain ⟨h1, h2⟩ := ih (x, i) (i + 1)
      have hacc : strLtB acc.1 (minLoop rest (x, i) (i + 1)).1 = false := by
        by_contra hcon
        have hcon' : strLtB acc.1 (minLoop rest (x, i) (i + 1)).1 = true :=
          eq_true_of_ne_false hcon
        by_cases hxm : strLtB x (minLoop rest (x, i) (i + 1)).1 = true
        · rw [hxm] at h1; cases h1
        · have hxe := hs.conn _ _ (Bool.eq_false_iff.mpr hxm) ?_
          · rw [hxe] at hx
            have := hs.asymm _ _ hx
            rw [hcon'] at this; cases this
          · by_contra hmx
            have hmx' := eq_true_of_ne_false hmx
            have := hs.trans _ _ _ hcon' hmx'
            have h2a := hs.asymm _ _ hx
            rw [this] at h2a; cases h2a
      refine ⟨hacc, ?_⟩
      intro y hy
      rcases List.mem_cons.mp hy with rfl | hyr
      · exact h1
      · exact h2 y hyr
    · rw [if_neg hx]
      obtain ⟨h1, h2⟩ := ih acc (i + 1)
      refine ⟨h1, ?_⟩
      intro y hy
      rcases List.mem_cons.mp hy with rfl | hyr
      · by_contra hcon
        have hcon' : strLtB y (minLoop rest acc (i + 1)).1 = true :=
          eq_true_of_ne_false hcon
        by_cases hma : strLtB (minLoop rest acc (i + 1)).1 acc.1 = true
        · exact hx (hs.trans _ _ _ hcon' hma)
        · have hme := hs.conn _ _ (Bool.eq_false_iff.mpr hma) h1
          rw [hme] at hcon'
          exact hx hcon'
      · exact h2 y hyr

theorem minPair_lt_length (c : List String) (h : ¬ c = []) : (minPair c).2 < c.length := by
  cases c with
  | nil => exact absurd rfl h
  | cons x xs =>
    rw [minPair]
    rcases minLoop_source xs (x, 0) 1 with heq | ⟨j, hj, heq⟩
    · rw [heq]; simp
    · rw [heq]
      show 1 + j < xs.length + 1
      omega

theorem get?_minPair (c : List String) (h : ¬ c = []) :
    c.get? (minPair c).2 = some (minPair c).1 := by
  cases c with
  | nil => exact absurd rfl h
  | cons x xs =>
    rw [minPair]
    rcases minLoop_source xs (x, 0) 1 with heq | ⟨j, hj, heq⟩
    · rw [heq]
      rfl
    · rw [heq]
      show (x :: xs).get? (1 + j) = some (xs.get ⟨j, hj⟩)
      rw [Nat.add_comm 1 j]
      show xs.get? j = some (xs.get ⟨j, hj⟩)
      rw [List.get?_eq_get hj]

theorem minPair_min (c : List String) : ∀ x ∈ c, strLtB x (minPair c).1 = false := by
  cases c with
  | nil => simp
  | cons x xs =>
    intro y hy
    rw [minPair]
    obtain ⟨h1, h2⟩ := minLoop_min xs (x, 0) 1
    rcases List.mem_cons.mp hy with rfl | hyr
    · exact h1
    · exact h2 y hyr

theorem rotToMin_eq_rotate (c : List String) (h : ¬ c = []) :
    rotToMin c = c.rotate (minPair c).2 := by
  unfold rotToMin
  rw [List.rotate_eq_drop_append_take (Nat.le_of_lt (minPair_lt_length c h))]

theorem get?_rotate_mod (l : List String) (n m : Nat) (h : m < l.length) :
    (l.rotate n).get? m = l.get? ((m + n) % l.length) := by
  have h2 : m < (l.rotate n).length := by simpa using h
  rw [List.get?_eq_get h2, List.get_rotate l n ⟨m, h2⟩]
  rw [List.get?_eq_get]

theorem argmin_unique (c : List String) (hnd : c.Nodup) (i j : Nat) (a b : String)
    (hi : i < c.length) (hj : j < c.length)
    (hia : c.get? i = some a) (hjb : c.get? j = some b)
    (hma : ∀ x ∈ c, strLtB x a = false) (hmb : ∀ x ∈ c, strLtB x b = false) : i = j := by
  have hs := strLtB_ord
  have hamem : a ∈ c := List.get?_mem hia
  have hbmem : b ∈ c := List.get?_mem hjb
  have hab : a = b := hs.conn a b (hmb a hamem) (hma b hbmem)
  subst hab
  exact List.get?_inj hi hnd (hia.trans hjb.symm)

theorem minPair_min_rotate_transfer (c : List String) (k : Nat) (x : String)
    (hx : x ∈ c) : x ∈ c.rotate k :=
  (List.rotate_perm c k).symm.subset hx

/-- Rotating never changes the from-the-minimum rotation of a
duplicate-free cycle. -/
theorem rotToMin_rotate (c : List String) (hnd : c.Nodup) (hne : ¬ c = []) (k : Nat) :
    rotToMin (c.rotate k) = rotToMin c := by
  have hn : 0 < c.length := List.length_pos.mpr hne
  have hne' : ¬ c.rotate k = [] := by
    intro h
    apply hne
    have hl := congrArg List.length h
    simp only [List.length_rotate, List.length_nil] at hl
    exact List.eq_nil_of_length_eq_zero hl
  have hnd' : (c.rotate k).Nodup := (List.rotate_perm c k).nodup_iff.mpr hnd
  set m' := (minPair (c.rotate k)).2 with hm'
  set m := (minPair c).2 with hm
  have hm'lt : m' < c.length := by
    have := minPair_lt_length (c.rotate k) hne'
    simpa using this
  have hmlt : m < c.length := minPair_lt_length c hne
  -- the head of each candidate rotation is a minimum of `c`
  have hval' : c.get? ((m' + k) % c.length) = some (minPair (c.rotate k)).1 := by
    rw [← get?_rotate_mod c k m' hm'lt]
    exact get?_minPair (c.rotate k) hne'
  have hmin' : ∀ x ∈ c, strLtB x (minPair (c.rotate k)).1 = false := fun x hx =>
    minPair_min (c.rotate k) x (minPair_min_rotate_transfer c k x hx)
  have hval : c.get? m = some (minPair c).1 := get?_minPair c hne
  have hidx : (m' + k) % c.length = m :=
    argmin_unique c hnd ((m' + k) % c.length) m (minPair (c.rotate k)).1 (minPair c).1
      (Nat.mod_lt _ hn) hmlt hval' hval hmin' (minPair_min c)
  rw [rotToMin_eq_rotate (c.rotate k) hne', rotToMin_eq_rotate c hne,
    List.rotate_rotate, ← hm', ← hm]
  rw [← List.rotate_mod c (k + m'), Nat.add_comm k m', hidx]

/-- `rotToMin` is constant on the rotation class of a duplicate-free
list. -/
theorem rotToMin_isRotated (c l : List String) (hnd : c.Nodup) (hne : ¬ c = [])
    (h : ∃ k, c.rotate k = l) : rotToMin l = rotToMin c := by
  obtain ⟨k, rfl⟩ := h
  exact rotToMin_rotate c hnd hne k

theorem canonicalise_eq_of_two (c : List String) (h : 2 ≤ c.length) :
    canonicalise_cycle c =
      if listStrLtB (rotToMin c.reverse) (rotToMin c) then rotToMin c.reverse
      else rotToMin c := by
  match c with
  | [] => simp at h
  | [x] => simp at h
  | a :: b :: t => rfl

theorem listStrLtB_min_comm (a b : List String) :
    (if listStrLtB b a then b else a) = (if listStrLtB a b then a else b) := by
  have hs := listStrLtB_ord
  by_cases hba : listStrLtB b a = true
  · rw [if_pos hba, if_neg (by rw [hs.asymm b a hba]; exact Bool.false_ne_true)]
  · rw [if_neg hba]
    by_cases hab : listStrLtB a b = true
    · rw [if_pos hab]
    · rw [if_neg hab]
      exact hs.conn a b (Bool.eq_false_iff.mpr hab) (Bool.eq_false_iff.mpr hba)

theorem rotToMin_length (c : List String) : (rotToMin c).length = c.length := by
  unfold rotToMin
  simp only [List.length_append, List.length_drop, List.length_take]
  omega

/-- Reversal invariance of `canonicalise_cycle` (for every list). -/
theorem canonicalise_cycle_reverse (c : List String) :
    canonicalise_cycle c.reverse = canonicalise_cycle c := by
  match c with
  | [] => rfl
  | [x] => rfl
  | a :: b :: t =>
    have h2 : 2 ≤ (a :: b :: t).length := by simp
    have h2r : 2 ≤ (a :: b :: t).reverse.length := by simpa using h2
    rw [canonicalise_eq_of_two _ h2, canonicalise_eq_of_two _ h2r,
      List.reverse_reverse]
    exact listStrLtB_min_comm _ _

/-- Rotation invariance of `canonicalise_cycle` on duplicate-free
cycles. -/
theorem canonicalise_cycle_rotate (c : List String) (hnd : c.Nodup) (k : Nat) :
    canonicalise_cycle (c.rotate k) = canonicalise_cycle c := by
  match c with
  | [] => rw [List.rotate_nil]
  | [x] => rw [List.rotate_singleton]
  | a :: b :: t =>
    set c := a :: b :: t with hc
    have hne : ¬ c = [] := by simp [hc]
    have hner : ¬ c.reverse = [] := by simp [hc]
    have h2 : 2 ≤ c.length := by simp [hc]
    have h2k : 2 ≤ (c.rotate k).length := by simpa using h2
    rw [canonicalise_eq_of_two _ h2, canonicalise_eq_of_two _ h2k]
    rw [rotToMin_rotate c hnd hne k]
    have hrev : ∃ m, c.reverse.rotate m = (c.rotate k).reverse := by
      have hrot : c ~r c.rotate k := ⟨k, rfl⟩
      exact hrot.reverse
    rw [rotToMin_isRotated c.reverse (c.rotate k).reverse
      (by simpa using hnd) hner hrev]

/-- Idempotence of `canonicalise_cycle` on duplicate-free cycles. -/
theorem canonicalise_cycle_idem (c : List String) (hnd : c.Nodup) :
    canonicalise_cycle (canonicalise_cycle c) = canonicalise_cycle c := by
  match c with
  | [] => rfl
  | [x] => rfl
  | a :: b :: t =>
    set c := a :: b :: t with hc
    have hne : ¬ c = [] := by simp [hc]
    have hner : ¬ c.reverse = [] := by simp [hc]
    have hndr : c.reverse.Nodup := by simpa using hnd
    have h2 : 2 ≤ c.length := by simp [hc]
    have hcanon := canonicalise_eq_of_two c h2
    have hfrot : ∃ m, c.rotate m = rotToMin c :=
      ⟨(minPair c).2, (rotToMin_eq_rotate c hne).symm⟩
    have hrrot : ∃ m, c.reverse.rotate m = rotToMin c.reverse :=
      ⟨(minPair c.reverse).2, (rotToMin_eq_rotate c.reverse hner).symm⟩
    by_cases hL : listStrLtB (rotToMin c.reverse) (rotToMin c) = true
    · have hd : canonicalise_cycle c = rotToMin c.reverse := by rw [hcanon, if_pos hL]
      have h2d : 2 ≤ (canonicalise_cycle c).length := by
        rw [hd, rotToMin_length]
        simpa using h2
      rw [canonicalise_eq_of_two _ h2d]
      have hdmin : rotToMin (canonicalise_cycle c) = rotToMin c.reverse := by
        rw [hd]
        exact rotToMin_isRotated c.reverse _ hndr hner hrrot
      have hdrev : rotToMin (canonicalise_cycle c).reverse = rotToMin c := by
        rw [hd]
        apply rotToMin_isRotated c _ hnd hne
        obtain ⟨m, hm⟩ := hrrot
        have hiso : c.reverse.reverse ~r (c.reverse.rotate m).reverse :=
          List.IsRotated.reverse ⟨m, rfl⟩
        rw [List.reverse_reverse] at hiso
        obtain ⟨n, hn⟩ := hiso
        exact ⟨n, by rw [hn, hm]⟩
      rw [hdmin, hdrev, hd]
      rw [listStrLtB_min_comm, if_pos hL]
    · have hd : canonicalise_cycle c = rotToMin c := by rw [hcanon, if_neg hL]
      have h2d : 2 ≤ (canonicalise_cycle c).length := by
        rw [hd, rotToMin_length]
        exact h2
      rw [canonicalise_eq_of_two _ h2d]
      have hdmin : rotToMin (canonicalise_cycle c) = rotToMin c := by
        rw [hd]
        exact rotToMin_isRotated c _ hnd hne hfrot
      have hdrev : rotToMin (canonicalise_cycle c).reverse = rotToMin c.reverse := by
        rw [hd]
        apply rotToMin_isRotated c.reverse _ hndr hner
        obtain ⟨m, hm⟩ := hfrot
        have hiso : c.reverse ~r (c.rotate m).reverse :=
          List.IsRotated.reverse ⟨m, rfl⟩
        obtain ⟨n, hn⟩ := hiso
        exact ⟨n, by rw [hn, hm]⟩
      rw [hdmin, hdrev, hd, if_neg hL]

/-- C7: on duplicate-free cycle lists (a DFS cycle slice never repeats a
vertex), `canonicalise_cycle` is invariant under every rotation and
under reversal, and is idempotent. -/
theorem canonicalise_cycle_invariant (c : List String) (k : Nat) (hnd : c.Nodup) :
    canonicalise_cycle (c.rotate k) = canonicalise_cycle c ∧
    canonicalise_cycle c.reverse = canonicalise_cycle c ∧
    canonicalise_cycle (canonicalise_cycle c) = canonicalise_cycle c :=
  ⟨canonicalise_cycle_rotate c hnd k, canonicalise_cycle_reverse c,
   canonicalise_cycle_idem c hnd⟩

theorem canonicalise_cycle_invariant_witness :
    canonicalise_cycle (["b", "a", "c"].rotate 2) = canonicalise_cycle ["b", "a", "c"] ∧
    canonicalise_cycle ["b", "a", "c"].reverse = canonicalise_cycle ["b", "a", "c"] ∧
    canonicalise_cycle (canonicalise_cycle ["b", "a", "c"]) =
      canonicalise_cycle ["b", "a", "c"] :=
  canonicalise_cycle_invariant ["b", "a", "c"] 2 (by decide)

end ArchDrift
